import Mathlib

/-!
Verification of the corsaro3 report plugin (InetIntel/corsaro3).

The definitions below are a shallow embedding of the C sources:
  - src/libcorsaro3/plugins/corsaro_report.c (the libcorsaro3 report plugin:
    IP tracker threads, per-IP metric sets, interval bookkeeping, merging),
  - src/libcorsaro/plugins/report/report_internal.h and
    src/libcorsaro/plugins/report/corsaro_report.c (the newer report plugin:
    REPORT_BATCH_SIZE, GEN_METRICID, port range bitmap parsing).
Machine integers are modelled as Nat with explicit reductions where the C
semantics requires them; hash maps (khash, uthash) and Judy arrays are
modelled as association lists with first-match lookup, matching the
observable behaviour of the C containers.
-/

namespace CorsaroReport

/-- Modulus of the C type uint64_t. -/
def UINT64_MOD : Nat := 2 ^ 64

/-- GEN_METRICID as defined in src/libcorsaro3/plugins/corsaro_report.c
(line 1550): ((((uint64_t) class) << 32) + ((uint64_t)val)), computed in
uint64_t arithmetic. -/
def GEN_METRICID (cls val : Nat) : Nat :=
  (((cls % UINT64_MOD) <<< 32) % UINT64_MOD + val % UINT64_MOD) % UINT64_MOD

/-- GEN_METRICID as defined in src/libcorsaro/plugins/report/report_internal.h
(line 75): ((((uint64_t) class) << 32) + ((uint64_t)val) & 0xFFFFFFFF).
In C the binary + binds tighter than the binary &, so this parses as
(((uint64_t) class << 32) + (uint64_t)val) & 0xFFFFFFFF. -/
def GEN_METRICID_internal_h (cls val : Nat) : Nat :=
  ((((cls % UINT64_MOD) <<< 32) % UINT64_MOD + val % UINT64_MOD) % UINT64_MOD) &&& 0xFFFFFFFF

/-- The key format asserted by the specification: (class << 32) | (value & 0xFFFFFFFF). -/
def specMetricKey (cls val : Nat) : Nat :=
  (cls <<< 32) ||| (val &&& 0xFFFFFFFF)

/-- REPORT_BATCH_SIZE from src/libcorsaro/plugins/report/report_internal.h line 70. -/
def REPORT_BATCH_SIZE : Nat := 10000

/-- REPORT_BATCH_SIZE from the legacy copy of the plugin,
src/libcorsaro3/plugins/corsaro_report.c line 351. -/
def REPORT_BATCH_SIZE_libcorsaro3 : Nat := 500

/-- One per-IP update entry (corsaro_report_msg_body_t): the IP address, the
role flag (issrc), the IP length carried with the entry (size) and the list
of metric ids (tags). -/
structure MsgBody where
  ipaddr : Nat
  issrc : Bool
  size : Nat
  tags : List Nat
deriving Repr, DecidableEq

/-- The pending update message that a packet processing thread accumulates
for one IP tracker thread (corsaro_report_ip_message_t, update part). -/
structure PendingMsg where
  bodycount : Nat
  update : List MsgBody
deriving Repr, DecidableEq

/-- The batching logic of update_metrics_for_address
(src/libcorsaro3/plugins/corsaro_report.c lines 1697-1735): append the body to
the pending message; if the body count is still below the batch size, keep
accumulating, otherwise push the message to the tracker queue (returned as
some flushed message) and start a fresh empty message. -/
def update_metrics_for_address (batch : Nat) (msg : PendingMsg) (body : MsgBody) :
    PendingMsg × Option PendingMsg :=
  let m : PendingMsg := { bodycount := msg.bodycount + 1, update := msg.update ++ [body] }
  if m.bodycount < batch then (m, none)
  else ({ bodycount := 0, update := [] }, some m)

/-- The size field assigned by process_tags
(src/libcorsaro3/plugins/corsaro_report.c lines 1600-1613): a source-role
body carries the packet's IP length, a destination-role body carries zero. -/
def mkBody (addr : Nat) (issrc : Bool) (iplen : Nat) (tags : List Nat) : MsgBody :=
  { ipaddr := addr, issrc := issrc, size := if issrc then iplen else 0, tags := tags }

/-- METRIC_ARRAY_SIZE from src/libcorsaro3/plugins/corsaro_report.c line 171. -/
def METRIC_ARRAY_SIZE : Nat := 20

/-- One entry of the inline firstmetrics array (corsaro_standalone_metric_t):
a metric id together with the source/dest role bitmask (metval). -/
structure StandaloneMetric where
  metricid : Nat
  metval : Nat
deriving Repr, DecidableEq

/-- Per-IP tracker entry (corsaro_ip_hash_t): the address, the inline array of
role bitmasks (firstmetrics, used slots only), the metric count and the
khash map (metricsseen) used after the array overflows. -/
structure IpHash where
  ipaddr : Nat
  firstmetrics : List StandaloneMetric
  metriccount : Nat
  metricsseen : List (Nat × Nat)
deriving Repr, DecidableEq

/-- Per-metric tally (corsaro_metric_ip_hash_t). -/
structure MetricTally where
  metricid : Nat
  srcips : Nat
  destips : Nat
  packets : Nat
  bytes : Nat
deriving Repr, DecidableEq

/-- First-match lookup in the khash metric set (kh_get on the mset hash). -/
def msetLookup : List (Nat × Nat) → Nat → Option Nat
  | [], _ => none
  | p :: rest, k => if p.1 == k then some p.2 else msetLookup rest k

/-- Store a value under a key in the khash metric set: replace the first
matching entry, or append a new one (kh_put followed by kh_value assignment). -/
def msetSet : List (Nat × Nat) → Nat → Nat → List (Nat × Nat)
  | [], k, v => [(k, v)]
  | p :: rest, k, v => if p.1 == k then (k, v) :: rest else p :: msetSet rest k v

/-- First-match scan of the inline firstmetrics array for a metric id,
returning the stored role bitmask (the loop in update_metric_array). -/
def arrFind : List StandaloneMetric → Nat → Option Nat
  | [], _ => none
  | sm :: rest, k => if sm.metricid == k then some sm.metval else arrFind rest k

/-- Overwrite the role bitmask of the first matching array slot. -/
def arrSetval : List StandaloneMetric → Nat → Nat → List StandaloneMetric
  | [], _, _ => []
  | sm :: rest, k, v =>
      if sm.metricid == k then { sm with metval := v } :: rest else sm :: arrSetval rest k v

/-- The shared role-bitmask update of update_metric_array / update_metric_map
(src/libcorsaro3/plugins/corsaro_report.c lines 647-653 and 718-724):
bit 1 records the IP as a source, bit 2 as a destination; when a bit is set
for the first time, the corresponding unique-IP tally is incremented. -/
def updRole (metval : Nat) (issrc : Bool) (m : MetricTally) : Nat × MetricTally :=
  if issrc && (metval &&& 1 == 0) then
    (metval ||| 1, { m with srcips := m.srcips + 1 })
  else if !issrc && (metval &&& 2 == 0) then
    (metval ||| 2, { m with destips := m.destips + 1 })
  else (metval, m)

/-- update_metric_map (src/libcorsaro3/plugins/corsaro_report.c lines 623-654):
kh_put the metric id with value 0 if absent (bumping metriccount), read the
stored bitmask, then apply the role-bitmask update and store the result. -/
def update_metric_map (iph : IpHash) (metricid : Nat) (issrc : Bool) (m : MetricTally) :
    IpHash × MetricTally :=
  match msetLookup iph.metricsseen metricid with
  | some v =>
      ({ iph with metricsseen := msetSet iph.metricsseen metricid (updRole v issrc m).1 },
       (updRole v issrc m).2)
  | none =>
      ({ iph with
          metricsseen := msetSet (iph.metricsseen ++ [(metricid, 0)]) metricid
            (updRole 0 issrc m).1,
          metriccount := iph.metriccount + 1 },
       (updRole 0 issrc m).2)

/-- The promotion loop of update_metric_array (lines 687-695): copy every
inline array slot into the khash metric set. -/
def promoteArray (l : List StandaloneMetric) (seen : List (Nat × Nat)) : List (Nat × Nat) :=
  l.foldl (fun s sm => msetSet s sm.metricid sm.metval) seen

/-- update_metric_array (src/libcorsaro3/plugins/corsaro_report.c lines
671-725): scan the inline array; on a hit update the slot's bitmask; on a
miss with a full array promote everything to the khash map and retry there;
otherwise append a fresh slot. -/
def update_metric_array (iph : IpHash) (metricid : Nat) (issrc : Bool) (m : MetricTally) :
    IpHash × MetricTally :=
  match arrFind iph.firstmetrics metricid with
  | some mv =>
      let r := updRole mv issrc m
      ({ iph with firstmetrics := arrSetval iph.firstmetrics metricid r.1 }, r.2)
  | none =>
      if iph.metriccount == METRIC_ARRAY_SIZE then
        update_metric_map
          { iph with metricsseen := promoteArray iph.firstmetrics iph.metricsseen }
          metricid issrc m
      else
        let r := updRole 0 issrc m
        ({ iph with
            firstmetrics := iph.firstmetrics ++ [{ metricid := metricid, metval := r.1 }],
            metriccount := iph.metriccount + 1 }, r.2)

/-- First-match lookup in the tally khash map; an absent metric behaves as a
freshly created zero tally (the kh_get / create branch of
update_knownip_metric). -/
def tallyLookup : List (Nat × MetricTally) → Nat → MetricTally
  | [], k => { metricid := k, srcips := 0, destips := 0, packets := 0, bytes := 0 }
  | p :: rest, k => if p.1 == k then p.2 else tallyLookup rest k

/-- Store a tally under a metric id: replace the first matching entry or
append. -/
def tallySet : List (Nat × MetricTally) → Nat → MetricTally → List (Nat × MetricTally)
  | [], k, m => [(k, m)]
  | p :: rest, k, m => if p.1 == k then (k, m) :: rest else p :: tallySet rest k m

/-- The dispatch of update_knownip_metric (lines 779-783): IPs whose metric
count still fits the inline array use the array update, all others the map
update. -/
def metricSetUpdate (iph : IpHash) (metricid : Nat) (issrc : Bool) (m : MetricTally) :
    IpHash × MetricTally :=
  if iph.metriccount ≤ METRIC_ARRAY_SIZE then update_metric_array iph metricid issrc m
  else update_metric_map iph metricid issrc m

/-- update_knownip_metric (src/libcorsaro3/plugins/corsaro_report.c lines
739-785): fetch or create the tally for the metric, add the packet and its
bytes when the carried IP length is nonzero, then update the per-IP role
bitmask through the array or the map depending on the metric count. -/
def update_knownip_metric (metricid : Nat) (iph : IpHash) (issrc : Bool) (iplen : Nat)
    (tally : List (Nat × MetricTally)) : IpHash × List (Nat × MetricTally) :=
  let m0 := tallyLookup tally metricid
  let m1 := if 0 < iplen then { m0 with packets := m0.packets + 1, bytes := m0.bytes + iplen }
            else m0
  let r := metricSetUpdate iph metricid issrc m1
  (r.1, tallySet tally metricid r.2)

/-- First-match lookup of an IP entry in the uthash knownips map. -/
def ipLookup : List IpHash → Nat → Option IpHash
  | [], _ => none
  | iph :: rest, ip => if iph.ipaddr == ip then some iph else ipLookup rest ip

/-- Store an IP entry back: replace the first entry with the same address or
append (HASH_ADD for a fresh entry, in-place mutation for an existing one). -/
def ipSet : List IpHash → IpHash → List IpHash
  | [], iph => [iph]
  | x :: rest, iph => if x.ipaddr == iph.ipaddr then iph :: rest else x :: ipSet rest iph

/-- A freshly inserted IP entry (the create branch of update_iphash). -/
def newIpHash (ip : Nat) : IpHash :=
  { ipaddr := ip, firstmetrics := [], metriccount := 0, metricsseen := [] }

/-- The per-body tag loop of process_msg_body (lines 880-895) acting on one
pair of maps: look up or create the IP entry once, then apply
update_knownip_metric for every tag of the body. A body with no tags leaves
the maps untouched. -/
def process_body_maps (knownips : List IpHash) (tally : List (Nat × MetricTally))
    (body : MsgBody) : List IpHash × List (Nat × MetricTally) :=
  match body.tags with
  | [] => (knownips, tally)
  | _ =>
      let iph0 := (ipLookup knownips body.ipaddr).getD (newIpHash body.ipaddr)
      let r := body.tags.foldl
        (fun (acc : IpHash × List (Nat × MetricTally)) mid =>
          update_knownip_metric mid acc.1 body.issrc body.size acc.2)
        (iph0, tally)
      (ipSet knownips r.1, r.2)

/-- Accumulation of a list of update bodies into one interval's maps,
starting from empty maps (one Tracker, one interval). -/
def processBodies (bodies : List MsgBody) : List IpHash × List (Nat × MetricTally) :=
  bodies.foldl (fun acc b => process_body_maps acc.1 acc.2 b) ([], [])

/-- One outstanding interval (corsaro_report_out_interval_t): its timestamp,
the processing threads whose interval-end has been recorded
(reports_recvd flags) and the redundant total counter (reports_total). -/
structure OutInterval where
  interval_ts : Nat
  reports_recvd : List Nat
  reports_total : Nat
deriving Repr, DecidableEq

/-- Setting the reports_recvd flag for a sender (lines 924-927): a sender
whose flag is already set is not counted again. -/
def markSender (o : OutInterval) (sender : Nat) : OutInterval :=
  if o.reports_recvd.contains sender then o
  else { o with reports_recvd := sender :: o.reports_recvd,
                reports_total := o.reports_total + 1 }

/-- The scan loop of update_outstanding (lines 921-937): find the first
outstanding entry with the given timestamp, mark the sender there and report
whether the entry reached the full report count. Returns none when no entry
matches. -/
def markOutstanding : List OutInterval → Nat → Nat → Nat → Option (List OutInterval × Bool)
  | [], _, _, _ => none
  | o :: rest, ts, limit, sender =>
      if o.interval_ts == ts then
        some (markSender o sender :: rest, (markSender o sender).reports_total == limit)
      else
        match markOutstanding rest ts limit sender with
        | none => none
        | some r => some (o :: r.1, r.2)

/-- The pruning loop of update_outstanding (lines 947-952): pop entries from
the front until the completed interval itself has been popped. -/
def dropThrough : List OutInterval → Nat → List OutInterval
  | [], _ => []
  | o :: rest, ts => if o.interval_ts == ts then rest else dropThrough rest ts

/-- update_outstanding (src/libcorsaro3/plugins/corsaro_report.c lines
911-970): mark the sender in the entry for the interval; if that entry now
has reports from all threads, prune it (and any stale predecessors) and
return the timestamp; if no entry exists yet, append a new one recording
this sender. -/
def update_outstanding (outl : List OutInterval) (ts limit sender : Nat) :
    List OutInterval × Nat :=
  match markOutstanding outl ts limit sender with
  | some r =>
      if r.2 && decide (0 < ts) then (dropThrough r.1 ts, ts)
      else if r.2 then
        (r.1 ++ [{ interval_ts := ts, reports_recvd := [sender], reports_total := 1 }], 0)
      else (r.1, 0)
  | none =>
      (outl ++ [{ interval_ts := ts, reports_recvd := [sender], reports_total := 1 }], 0)

/-- IP tracker thread state (corsaro_report_iptracker_t), restricted to the
fields the tracker loop manipulates. -/
structure Tracker where
  lastresultts : Nat
  sourcethreads : Nat
  haltphase : Nat
  knownips : List IpHash
  knownips_next : List IpHash
  lastresult : Option (List (Nat × MetricTally))
  currentresult : List (Nat × MetricTally)
  nextresult : List (Nat × MetricTally)
  outstanding : List OutInterval
deriving Repr, DecidableEq

/-- sender_in_outstanding (lines 834-849): does any outstanding entry record
an interval-end from this sender. -/
def sender_in_outstanding (outl : List OutInterval) (sender : Nat) : Bool :=
  outl.any (fun o => o.reports_recvd.contains sender)

/-- process_msg_body (lines 858-897): choose the maps the body is applied to.
With no outstanding intervals the current maps are used; otherwise a sender
already recorded in the outstanding list is routed to the next-interval
maps, and any other sender to the current maps. -/
def process_msg_body (tr : Tracker) (sender : Nat) (body : MsgBody) : Tracker :=
  if tr.outstanding.length == 0 then
    let r := process_body_maps tr.knownips tr.currentresult body
    { tr with knownips := r.1, currentresult := r.2 }
  else if sender_in_outstanding tr.outstanding sender then
    let r := process_body_maps tr.knownips_next tr.nextresult body
    { tr with knownips_next := r.1, nextresult := r.2 }
  else
    let r := process_body_maps tr.knownips tr.currentresult body
    { tr with knownips := r.1, currentresult := r.2 }

/-- The update-message loop of start_iptracker (lines 1068-1070). -/
def handle_update (tr : Tracker) (sender : Nat) (bodies : List MsgBody) : Tracker :=
  bodies.foldl (fun t b => process_msg_body t sender b) tr

/-- The HALT branch of start_iptracker (lines 998-1009). -/
def handle_halt (tr : Tracker) : Tracker :=
  if tr.outstanding.length == 0 then { tr with haltphase := 2 }
  else { tr with haltphase := 1 }

/-- The INTERVAL branch of start_iptracker (lines 1011-1064): drop zero or
stale timestamps, record the sender, and when the interval completes publish
the current tally as the last result, stamp it, and rotate the next-interval
maps into place. -/
def handle_interval (tr : Tracker) (ts sender : Nat) : Tracker :=
  if ts == 0 then tr
  else if ts ≤ tr.lastresultts then tr
  else if (update_outstanding tr.outstanding ts tr.sourcethreads sender).2 == 0 then
    { tr with outstanding := (update_outstanding tr.outstanding ts tr.sourcethreads sender).1 }
  else
    { tr with
        outstanding := (update_outstanding tr.outstanding ts tr.sourcethreads sender).1,
        lastresult := some tr.currentresult,
        lastresultts := (update_outstanding tr.outstanding ts tr.sourcethreads sender).2,
        haltphase := if tr.haltphase == 1 then 2 else tr.haltphase,
        knownips := tr.knownips_next,
        currentresult := tr.nextresult,
        knownips_next := [],
        nextresult := [] }

/-- Messages an IP tracker thread can receive. -/
inductive TrackMsg where
  | halt : TrackMsg
  | interval : Nat → Nat → TrackMsg
  | update : Nat → List MsgBody → TrackMsg
deriving Repr, DecidableEq

/-- One iteration of the start_iptracker message loop; a tracker whose halt
phase has reached 2 has exited the loop and ignores further messages. -/
def trackerStep (tr : Tracker) (msg : TrackMsg) : Tracker :=
  if tr.haltphase == 2 then tr
  else
    match msg with
    | .halt => handle_halt tr
    | .interval ts sender => handle_interval tr ts sender
    | .update sender bodies => handle_update tr sender bodies

/-- The tracker loop over a whole run of messages. -/
def trackerRun (tr : Tracker) (msgs : List TrackMsg) : Tracker :=
  msgs.foldl trackerStep tr

/-- The snapshot of a tracker that the merge thread reads under the tracker
mutex: the last complete tally, its timestamp, and the halt phase. -/
structure TrackerSnap where
  lastresultts : Nat
  haltphase : Nat
  lastresult : List (Nat × MetricTally)
deriving Repr, DecidableEq

/-- The per-metric accumulation of update_tracker_results (lines 2029-2066):
add one tracker's tally for a metric into the combined result map. -/
def mergeTallyEntry (results : List (Nat × MetricTally)) (p : Nat × MetricTally) :
    List (Nat × MetricTally) :=
  let r := tallyLookup results p.1
  tallySet results p.1
    { r with srcips := r.srcips + p.2.srcips,
             destips := r.destips + p.2.destips,
             packets := r.packets + p.2.packets,
             bytes := r.bytes + p.2.bytes }

/-- update_tracker_results: merge a whole tracker tally into the combined
result map. -/
def update_tracker_results (results : List (Nat × MetricTally))
    (tally : List (Nat × MetricTally)) : List (Nat × MetricTally) :=
  tally.foldl mergeTallyEntry results

/-- corsaro_report_merge_interval_results (lines 2078-2179), modelled on the
tracker snapshots observed when its polling loop exits: every tracker has
either produced the tally for the merged interval (collected into the result
map) or has halted (which raises the skip flag). When the skip flag is set,
nothing is written and the function returns success (0); otherwise the
combined rows are written. The first component is the set of rows written
(none when emission was suppressed), the second the return value. -/
def corsaro_report_merge_interval_results (snaps : List TrackerSnap) (ts : Nat) :
    Option (List (Nat × MetricTally)) × Int :=
  let collected := (snaps.filter (fun s => s.lastresultts == ts)).foldl
      (fun res s => update_tracker_results res s.lastresult) []
  let skipresult := snaps.any (fun s => !(s.lastresultts == ts) && s.haltphase == 2)
  if skipresult then (none, 0) else (some collected, 0)

/-- One byte of mask bits contributed by the range [first, last] to byte
index idx of the port bitmap (the toadd computation of parse_port_ranges,
src/libcorsaro/plugins/report/corsaro_report.c lines 262-286). -/
def toaddByte (first last idx : Nat) : Nat :=
  let msb := idx * 8
  let lsb := msb + 7
  let t0 : Nat := 0xff
  let t1 := if msb < first then
              (if 8 ≤ first - msb then 0 else t0 &&& (0xff >>> (first - msb)))
            else t0
  if last < lsb then
    (if 8 ≤ lsb - last then 0 else t1 &&& (0xff <<< (lsb - last)))
  else t1

/-- Pointwise update of the byte array. -/
def updByte (a : Nat → Nat) (i v : Nat) : Nat → Nat :=
  fun j => if j == i then v else a j

/-- The index loop of parse_port_ranges (lines 262-287): starting at
first / 8, OR the mask byte into each byte of the bitmap, stopping at the
end of the array or as soon as the byte lies wholly above the range. -/
def rangeLoop (first last : Nat) : Nat → (Nat → Nat) → Nat → (Nat → Nat)
  | 0, a, _ => a
  | fuel + 1, a, idx =>
      if idx < 8192 then
        if last < idx * 8 then a
        else rangeLoop first last fuel
               (updByte a idx (a idx ||| toaddByte first last idx)) (idx + 1)
      else a

/-- Application of one validated port range to a bitmap. -/
def applyRange (a : Nat → Nat) (first last : Nat) : Nat → Nat :=
  rangeLoop first last (8192 - first / 8) a (first / 8)

/-- The combined effect of parse_port_ranges and the defaulting code of
corsaro_report_parse_config (lines 560-575) on one of the four port bitmaps,
given the validated ranges of the configuration: with no configured range
every byte is 0xff; otherwise the bitmap starts zeroed (the seen-flag memset)
and each range is ORed in. -/
def buildPortBitmap (ranges : List (Nat × Nat)) : Nat → Nat :=
  match ranges with
  | [] => fun _ => 0xff
  | _ => ranges.foldl (fun a r => applyRange a r.1 r.2) (fun _ => 0)

/-- Reading the bit for port p from the bitmap, with the most significant
bit of each byte holding the lowest-numbered port, matching how
parse_port_ranges writes the mask bytes. -/
def portBitSet (a : Nat → Nat) (p : Nat) : Bool :=
  (a (p / 8)).testBit (7 - p % 8)

/-- Claim C3: the 64-bit key produced by GEN_METRICID(c, v) is claimed to
equal (c << 32) | (v & 0xFFFFFFFF), with the class recoverable from the
upper 32 bits. The copy of the macro in report_internal.h violates this: C
operator precedence makes the mask apply to the whole sum, so for class 6
(TCP source port) and value 80 the macro yields 80, the class bits are lost
(the upper 32 bits are 0, not 6), while the libcorsaro3 copy of the macro
does produce the claimed key. -/
theorem c3_genmetricid_class_lost :
    GEN_METRICID_internal_h 6 80 = 80 ∧
    specMetricKey 6 80 = 25769803856 ∧
    GEN_METRICID_internal_h 6 80 ≠ specMetricKey 6 80 ∧
    GEN_METRICID_internal_h 6 80 >>> 32 ≠ 6 ∧
    GEN_METRICID 6 80 = specMetricKey 6 80 := by
  refine ⟨by decide, by decide, by decide, by decide, by decide⟩

/-- Claim C9: a processing thread flushes the pending update message for a
tracker exactly when the accumulated per-IP update count reaches
REPORT_BATCH_SIZE, whose value (report_internal.h) is 10000: below the
threshold the body is appended and nothing is sent; at the threshold the
filled message (carrying every accumulated update) is pushed and a fresh
empty message takes its place. -/
theorem c9_flush_at_batch_threshold :
    (∀ (msg : PendingMsg) (body : MsgBody), msg.bodycount + 1 < REPORT_BATCH_SIZE →
      update_metrics_for_address REPORT_BATCH_SIZE msg body
        = ({ bodycount := msg.bodycount + 1, update := msg.update ++ [body] }, none)) ∧
    (∀ (msg : PendingMsg) (body : MsgBody), msg.bodycount + 1 = REPORT_BATCH_SIZE →
      update_metrics_for_address REPORT_BATCH_SIZE msg body
        = ({ bodycount := 0, update := [] },
           some { bodycount := REPORT_BATCH_SIZE, update := msg.update ++ [body] })) ∧
    REPORT_BATCH_SIZE = 10000 := by
  refine ⟨fun msg body h => ?_, fun msg body h => ?_, rfl⟩
  · simp only [update_metrics_for_address, if_pos h]
  · simp only [update_metrics_for_address, h]
    simp

/-- Witness for C9: a message holding 0 updates is not flushed by the next
update, a message holding 9999 updates is flushed by its 10000th update. -/
theorem c9_flush_at_batch_threshold_witness :
    update_metrics_for_address REPORT_BATCH_SIZE
        { bodycount := 0, update := [] } (mkBody 1 true 40 [0])
      = ({ bodycount := 1, update := [mkBody 1 true 40 [0]] }, none) ∧
    update_metrics_for_address REPORT_BATCH_SIZE
        { bodycount := 9999, update := [] } (mkBody 1 true 40 [0])
      = ({ bodycount := 0, update := [] },
         some { bodycount := REPORT_BATCH_SIZE, update := [mkBody 1 true 40 [0]] }) := by
  constructor
  · exact c9_flush_at_batch_threshold.1 { bodycount := 0, update := [] }
      (mkBody 1 true 40 [0]) (by decide)
  · exact c9_flush_at_batch_threshold.2.1 { bodycount := 9999, update := [] }
      (mkBody 1 true 40 [0]) (by decide)

/-- Application of a list of update bodies to one pair of (IP map, tally)
maps, as the tracker's update loop does. -/
def applyBodies (kt : List IpHash × List (Nat × MetricTally)) (bodies : List MsgBody) :
    List IpHash × List (Nat × MetricTally) :=
  bodies.foldl (fun acc b => process_body_maps acc.1 acc.2 b) kt

theorem applyBodies_nil (kt : List IpHash × List (Nat × MetricTally)) :
    applyBodies kt [] = kt := rfl

theorem applyBodies_cons (kt : List IpHash × List (Nat × MetricTally)) (b : MsgBody)
    (rest : List MsgBody) :
    applyBodies kt (b :: rest) = applyBodies (process_body_maps kt.1 kt.2 b) rest := rfl

theorem process_msg_body_next_route (tr : Tracker) (sender : Nat) (body : MsgBody)
    (h1 : tr.outstanding ≠ []) (h2 : sender_in_outstanding tr.outstanding sender = true) :
    process_msg_body tr sender body
      = { tr with knownips_next := (process_body_maps tr.knownips_next tr.nextresult body).1,
                  nextresult := (process_body_maps tr.knownips_next tr.nextresult body).2 } := by
  have hlen : (tr.outstanding.length == 0) = false := by
    simp [List.length_eq_zero, h1]
  simp [process_msg_body, hlen, h2]

theorem process_msg_body_curr_route (tr : Tracker) (sender : Nat) (body : MsgBody)
    (h : tr.outstanding = [] ∨ sender_in_outstanding tr.outstanding sender = false) :
    process_msg_body tr sender body
      = { tr with knownips := (process_body_maps tr.knownips tr.currentresult body).1,
                  currentresult := (process_body_maps tr.knownips tr.currentresult body).2 } := by
  rcases h with h | h
  · simp [process_msg_body, h]
  · by_cases hlen : tr.outstanding.length = 0
    · simp [process_msg_body, hlen]
    · simp [process_msg_body, hlen, h]

/-- Claim C5: an UPDATE message from sender s is routed to the next-interval
maps exactly when the outstanding list is nonempty and s is recorded in some
outstanding entry; in every other case (in particular whenever the
outstanding list is empty) it is applied to the current-interval maps, the
other pair of maps being left untouched. -/
theorem c5_update_routing (tr : Tracker) (sender : Nat) (bodies : List MsgBody) :
    (tr.outstanding ≠ [] → sender_in_outstanding tr.outstanding sender = true →
      (handle_update tr sender bodies).knownips = tr.knownips ∧
      (handle_update tr sender bodies).currentresult = tr.currentresult ∧
      (handle_update tr sender bodies).knownips_next
        = (applyBodies (tr.knownips_next, tr.nextresult) bodies).1 ∧
      (handle_update tr sender bodies).nextresult
        = (applyBodies (tr.knownips_next, tr.nextresult) bodies).2) ∧
    (tr.outstanding = [] ∨ sender_in_outstanding tr.outstanding sender = false →
      (handle_update tr sender bodies).knownips_next = tr.knownips_next ∧
      (handle_update tr sender bodies).nextresult = tr.nextresult ∧
      (handle_update tr sender bodies).knownips
        = (applyBodies (tr.knownips, tr.currentresult) bodies).1 ∧
      (handle_update tr sender bodies).currentresult
        = (applyBodies (tr.knownips, tr.currentresult) bodies).2) := by
  induction bodies generalizing tr with
  | nil => exact ⟨fun _ _ => ⟨rfl, rfl, rfl, rfl⟩, fun _ => ⟨rfl, rfl, rfl, rfl⟩⟩
  | cons b rest ih =>
      constructor
      · intro h1 h2
        have hstep := process_msg_body_next_route tr sender b h1 h2
        have hu : handle_update tr sender (b :: rest)
            = handle_update (process_msg_body tr sender b) sender rest := rfl
        rw [hu, hstep]
        have := (ih { tr with
            knownips_next := (process_body_maps tr.knownips_next tr.nextresult b).1,
            nextresult := (process_body_maps tr.knownips_next tr.nextresult b).2 }).1
        simpa [applyBodies_cons] using this h1 h2
      · intro h
        have hstep := process_msg_body_curr_route tr sender b h
        have hu : handle_update tr sender (b :: rest)
            = handle_update (process_msg_body tr sender b) sender rest := rfl
        rw [hu, hstep]
        have := (ih { tr with
            knownips := (process_body_maps tr.knownips tr.currentresult b).1,
            currentresult := (process_body_maps tr.knownips tr.currentresult b).2 }).2
        simpa [applyBodies_cons] using this h

/-- A concrete tracker state used by the witnesses: two source threads, one
outstanding interval (timestamp 100) with an interval-end recorded from
thread 0. -/
def trW : Tracker :=
  { lastresultts := 0, sourcethreads := 2, haltphase := 0,
    knownips := [], knownips_next := [], lastresult := none,
    currentresult := [(0, { metricid := 0, srcips := 1, destips := 1,
                            packets := 3, bytes := 200 })],
    nextresult := [],
    outstanding := [{ interval_ts := 100, reports_recvd := [0], reports_total := 1 }] }

/-- Witness for C5: on trW, sender 0 is recorded in the outstanding list, so
its update is applied to the next-interval maps and the current maps are
untouched. -/
theorem c5_update_routing_witness :
    (handle_update trW 0 [mkBody 1 true 40 [0]]).knownips = trW.knownips ∧
    (handle_update trW 0 [mkBody 1 true 40 [0]]).currentresult = trW.currentresult ∧
    (handle_update trW 0 [mkBody 1 true 40 [0]]).knownips_next
      = (applyBodies (trW.knownips_next, trW.nextresult) [mkBody 1 true 40 [0]]).1 ∧
    (handle_update trW 0 [mkBody 1 true 40 [0]]).nextresult
      = (applyBodies (trW.knownips_next, trW.nextresult) [mkBody 1 true 40 [0]]).2 :=
  (c5_update_routing trW 0 [mkBody 1 true 40 [0]]).1 (by decide) (by decide)

theorem process_msg_body_lastresultts (tr : Tracker) (sender : Nat) (body : MsgBody) :
    (process_msg_body tr sender body).lastresultts = tr.lastresultts := by
  unfold process_msg_body
  split
  · rfl
  · split <;> rfl

theorem handle_update_lastresultts (tr : Tracker) (sender : Nat) (bodies : List MsgBody) :
    (handle_update tr sender bodies).lastresultts = tr.lastresultts := by
  induction bodies generalizing tr with
  | nil => rfl
  | cons b rest ih =>
      have hu : handle_update tr sender (b :: rest)
          = handle_update (process_msg_body tr sender b) sender rest := rfl
      rw [hu, ih, process_msg_body_lastresultts]

theorem update_outstanding_snd (outl : List OutInterval) (ts limit sender : Nat) :
    (update_outstanding outl ts limit sender).2 = 0 ∨
    (update_outstanding outl ts limit sender).2 = ts := by
  unfold update_outstanding
  rcases h : markOutstanding outl ts limit sender with _ | r
  · exact Or.inl rfl
  · by_cases hc : (r.2 && decide (0 < ts)) = true
    · simp [hc]
    · by_cases hr : r.2 = true
      · simp only [hc, Bool.false_eq_true, if_false, hr, if_true]
        by_cases hts : 0 < ts
        · simp [hts]
        · simp [hts]
      · simp [hc, hr]

theorem handle_interval_lastresultts (tr : Tracker) (ts sender : Nat) :
    (handle_interval tr ts sender).lastresultts = tr.lastresultts ∨
    ((handle_interval tr ts sender).lastresultts = ts ∧ tr.lastresultts < ts) := by
  unfold handle_interval
  by_cases h0 : (ts == 0) = true
  · rw [if_pos h0]
    exact Or.inl rfl
  · rw [if_neg h0]
    by_cases hle : ts ≤ tr.lastresultts
    · rw [if_pos hle]
      exact Or.inl rfl
    · rw [if_neg hle]
      by_cases hz : ((update_outstanding tr.outstanding ts tr.sourcethreads sender).2 == 0) = true
      · rw [if_pos hz]
        exact Or.inl rfl
      · rw [if_neg hz]
        right
        rcases update_outstanding_snd tr.outstanding ts tr.sourcethreads sender with h | h
        · exact absurd (by simpa using h) hz
        · exact ⟨h, by omega⟩

theorem trackerStep_mono (tr : Tracker) (msg : TrackMsg) :
    tr.lastresultts ≤ (trackerStep tr msg).lastresultts := by
  unfold trackerStep
  by_cases hh : (tr.haltphase == 2) = true
  · rw [if_pos hh]
  · rw [if_neg hh]
    cases msg with
    | halt =>
        show tr.lastresultts ≤ (handle_halt tr).lastresultts
        unfold handle_halt
        by_cases h : (tr.outstanding.length == 0) = true
        · rw [if_pos h]
        · rw [if_neg h]
    | interval ts sender =>
        show tr.lastresultts ≤ (handle_interval tr ts sender).lastresultts
        rcases handle_interval_lastresultts tr ts sender with h | h
        · omega
        · rcases h with ⟨h1, h2⟩
          omega
    | update sender bodies =>
        show tr.lastresultts ≤ (handle_update tr sender bodies).lastresultts
        exact Nat.le_of_eq (handle_update_lastresultts tr sender bodies).symm

/-- Claim C6: the last-complete-tally timestamp of a tracker is monotonic
non-decreasing over any run of messages; an INTERVAL message whose timestamp
is zero or not greater than the current last result timestamp leaves the
tracker state unchanged; and whenever an INTERVAL message changes the
timestamp it assigns exactly the message's (strictly larger) timestamp. -/
theorem c6_lastresultts_monotonic :
    (∀ (tr : Tracker) (msgs : List TrackMsg),
        tr.lastresultts ≤ (trackerRun tr msgs).lastresultts) ∧
    (∀ (tr : Tracker) (ts sender : Nat), ts = 0 ∨ ts ≤ tr.lastresultts →
        trackerStep tr (.interval ts sender) = tr) ∧
    (∀ (tr : Tracker) (ts sender : Nat),
        (trackerStep tr (.interval ts sender)).lastresultts ≠ tr.lastresultts →
        (trackerStep tr (.interval ts sender)).lastresultts = ts ∧
        tr.lastresultts < ts) := by
  refine ⟨?_, ?_, ?_⟩
  · intro tr msgs
    induction msgs generalizing tr with
    | nil => exact Nat.le_refl _
    | cons m rest ih =>
        exact Nat.le_trans (trackerStep_mono tr m) (ih (trackerStep tr m))
  · intro tr ts sender h
    unfold trackerStep
    by_cases hh : (tr.haltphase == 2) = true
    · rw [if_pos hh]
    · rw [if_neg hh]
      show handle_interval tr ts sender = tr
      unfold handle_interval
      rcases h with h | h
      · rw [if_pos (by simpa using h)]
      · by_cases h0 : (ts == 0) = true
        · rw [if_pos h0]
        · rw [if_neg h0, if_pos h]
  · intro tr ts sender h
    by_cases hh : (tr.haltphase == 2) = true
    · exfalso
      apply h
      show (trackerStep tr (.interval ts sender)).lastresultts = tr.lastresultts
      unfold trackerStep
      rw [if_pos hh]
    · have hstep : trackerStep tr (.interval ts sender) = handle_interval tr ts sender := by
        unfold trackerStep
        rw [if_neg hh]
      rw [hstep] at h ⊢
      rcases handle_interval_lastresultts tr ts sender with h2 | h2
      · exact absurd h2 h
      · exact ⟨h2.1, h2.2⟩

/-- Witness for C6: on trW a zero-timestamp INTERVAL message is discarded
unchanged, and the INTERVAL message that completes interval 100 assigns the
strictly larger timestamp 100. -/
theorem c6_lastresultts_monotonic_witness :
    trackerStep trW (.interval 0 0) = trW ∧
    ((trackerStep trW (.interval 100 1)).lastresultts = 100 ∧ trW.lastresultts < 100) :=
  ⟨c6_lastresultts_monotonic.2.1 trW 0 0 (Or.inl rfl),
   c6_lastresultts_monotonic.2.2 trW 100 1 (by decide)⟩

theorem markOutstanding_complete (ts limit sender : Nat) :
    ∀ (outl outl2 : List OutInterval),
      markOutstanding outl ts limit sender = some (outl2, true) →
      ∃ o ∈ outl, o.interval_ts = ts ∧ (markSender o sender).reports_total = limit := by
  intro outl
  induction outl with
  | nil => intro outl2 h; cases h
  | cons o rest ih =>
      intro outl2 h
      unfold markOutstanding at h
      by_cases ho : (o.interval_ts == ts) = true
      · rw [if_pos ho] at h
        injection h with h
        have h2 : ((markSender o sender).reports_total == limit) = true :=
          congrArg Prod.snd h
        exact ⟨o, List.mem_cons_self o rest, by simpa using ho, by simpa using h2⟩
      · rw [if_neg ho] at h
        cases hrec : markOutstanding rest ts limit sender with
        | none => rw [hrec] at h; cases h
        | some r =>
            rw [hrec] at h
            injection h with h
            have h2 : r.2 = true := congrArg Prod.snd h
            rcases r with ⟨r1, r2⟩
            rcases ih r1 (h2 ▸ hrec) with ⟨o2, hmem, hts, htot⟩
            exact ⟨o2, List.mem_cons_of_mem o hmem, hts, htot⟩

theorem handle_interval_publish (tr : Tracker) (ts sender : Nat)
    (h : (handle_interval tr ts sender).lastresultts ≠ tr.lastresultts) :
    (handle_interval tr ts sender).lastresultts = ts ∧
    (handle_interval tr ts sender).lastresult = some tr.currentresult ∧
    ∃ outl2, markOutstanding tr.outstanding ts tr.sourcethreads sender = some (outl2, true) := by
  unfold handle_interval at h ⊢
  by_cases h0 : (ts == 0) = true
  · rw [if_pos h0] at h
    exact absurd rfl h
  · rw [if_neg h0] at h ⊢
    by_cases hle : ts ≤ tr.lastresultts
    · rw [if_pos hle] at h
      exact absurd rfl h
    · rw [if_neg hle] at h ⊢
      by_cases hz : ((update_outstanding tr.outstanding ts tr.sourcethreads sender).2 == 0) = true
      · rw [if_pos hz] at h
        exact absurd rfl h
      · rw [if_neg hz] at h ⊢
        refine ⟨?_, rfl, ?_⟩
        · rcases update_outstanding_snd tr.outstanding ts tr.sourcethreads sender with hs | hs
          · exact absurd (by simpa using hs) hz
          · exact hs
        · unfold update_outstanding at hz
          cases hm : markOutstanding tr.outstanding ts tr.sourcethreads sender with
          | none => rw [hm] at hz; simp at hz
          | some r =>
              rcases r with ⟨r1, r2⟩
              rw [hm] at hz
              by_cases hc : (r2 && decide (0 < ts)) = true
              · have hr2 : r2 = true := ((Bool.and_eq_true _ _).mp hc).1
                exact ⟨r1, by rw [hr2]⟩
              · by_cases hr : r2 = true
                · have hts : ¬ 0 < ts := by
                    intro hlt
                    exact hc (by simp [hr, hlt])
                  have hts0 : ts = 0 := by omega
                  rw [hts0] at h0
                  simp at h0
                · simp [hc, hr] at hz

theorem full_senders (l : List Nat) (n : Nat) (hnd : l.Nodup)
    (hlt : ∀ s ∈ l, s < n) (hlen : l.length = n) : ∀ s, s < n → s ∈ l := by
  intro s hs
  have hsub : l.toFinset ⊆ Finset.range n := by
    intro x hx
    exact Finset.mem_range.mpr (hlt x (List.mem_toFinset.mp hx))
  have hcard : l.toFinset.card = n := by
    rw [List.toFinset_card_of_nodup hnd, hlen]
  have heq : l.toFinset = Finset.range n := by
    apply Finset.eq_of_subset_of_card_le hsub
    rw [hcard, Finset.card_range]
  have hmem : s ∈ l.toFinset := by
    rw [heq]
    exact Finset.mem_range.mpr hs
  exact List.mem_toFinset.mp hmem

theorem markSender_reports_recvd (o : OutInterval) (sender : Nat) :
    (markSender o sender).reports_recvd = o.reports_recvd ∨
    ((markSender o sender).reports_recvd = sender :: o.reports_recvd ∧
      sender ∉ o.reports_recvd) := by
  unfold markSender
  by_cases hc : o.reports_recvd.contains sender = true
  · rw [if_pos hc]
    exact Or.inl rfl
  · rw [if_neg hc]
    refine Or.inr ⟨rfl, fun hmem => hc (List.elem_iff.mpr hmem)⟩

theorem markSender_total_eq_length (o : OutInterval) (sender : Nat)
    (h : o.reports_total = o.reports_recvd.length) :
    (markSender o sender).reports_total = (markSender o sender).reports_recvd.length := by
  unfold markSender
  by_cases hc : o.reports_recvd.contains sender = true
  · rw [if_pos hc]
    exact h
  · rw [if_neg hc]
    simp [h]

/-- Claim C4: a tracker publishes the tally for interval ts (replacing the
last-complete slot and stamping it ts) only when the outstanding entry for ts
records interval-end messages from all sourcethreads distinct senders; a
sender's repeated interval-end is never counted twice (the recorded sender
list stays duplicate-free and, given that all senders are valid thread ids,
publication implies every configured sender is recorded). -/
theorem c4_publish_requires_all_senders (tr : Tracker) (ts sender : Nat)
    (hinv : ∀ o ∈ tr.outstanding, o.reports_recvd.Nodup ∧
        o.reports_total = o.reports_recvd.length ∧
        ∀ s ∈ o.reports_recvd, s < tr.sourcethreads)
    (hsender : sender < tr.sourcethreads)
    (hpub : (handle_interval tr ts sender).lastresultts ≠ tr.lastresultts) :
    (handle_interval tr ts sender).lastresultts = ts ∧
    (handle_interval tr ts sender).lastresult = some tr.currentresult ∧
    ∃ o ∈ tr.outstanding, o.interval_ts = ts ∧
      (markSender o sender).reports_recvd.Nodup ∧
      (markSender o sender).reports_recvd.length = tr.sourcethreads ∧
      ∀ s, s < tr.sourcethreads → s ∈ (markSender o sender).reports_recvd := by
  obtain ⟨hts, hlast, outl2, hmark⟩ := handle_interval_publish tr ts sender hpub
  obtain ⟨o, hmem, hots, htot⟩ := markOutstanding_complete ts tr.sourcethreads sender
    tr.outstanding outl2 hmark
  obtain ⟨hnd, hlen, hbound⟩ := hinv o hmem
  have hnd2 : (markSender o sender).reports_recvd.Nodup := by
    rcases markSender_reports_recvd o sender with h | ⟨h, hnm⟩
    · rw [h]; exact hnd
    · rw [h]; exact List.nodup_cons.mpr ⟨hnm, hnd⟩
  have hbound2 : ∀ s ∈ (markSender o sender).reports_recvd, s < tr.sourcethreads := by
    rcases markSender_reports_recvd o sender with h | ⟨h, _⟩
    · rw [h]; exact hbound
    · rw [h]
      intro s hmem2
      rcases List.mem_cons.mp hmem2 with h2 | h2
      · exact h2 ▸ hsender
      · exact hbound s h2
  have hlen2 : (markSender o sender).reports_recvd.length = tr.sourcethreads := by
    rw [← markSender_total_eq_length o sender hlen]
    exact htot
  exact ⟨hts, hlast, o, hmem, hots, hnd2, hlen2,
    full_senders _ _ hnd2 hbound2 hlen2⟩

/-- Witness for C4: on trW the interval-end from thread 1 completes interval
100 (thread 0 is already recorded); the publication carries timestamp 100 and
both configured threads are recorded exactly once. -/
theorem c4_publish_requires_all_senders_witness :
    (handle_interval trW 100 1).lastresultts = 100 ∧
    (handle_interval trW 100 1).lastresult = some trW.currentresult ∧
    ∃ o ∈ trW.outstanding, o.interval_ts = 100 ∧
      (markSender o 1).reports_recvd.Nodup ∧
      (markSender o 1).reports_recvd.length = trW.sourcethreads ∧
      ∀ s, s < trW.sourcethreads → s ∈ (markSender o 1).reports_recvd :=
  c4_publish_requires_all_senders trW 100 1 (by decide) (by decide) (by decide)

/-- Claim C7: when the merge loop has terminated (every tracker has either
produced the tally for the merged interval or has halted) and some tracker
halted without producing a tally stamped with the merged interval, the
merger writes no result rows at all and returns success, even though it
collected the tallies of the completed trackers. -/
theorem c7_halt_suppresses_emission (snaps : List TrackerSnap) (ts : Nat)
    (_hterm : ∀ s ∈ snaps, s.lastresultts = ts ∨ s.haltphase = 2)
    (hhalt : ∃ s ∈ snaps, s.haltphase = 2 ∧ s.lastresultts ≠ ts) :
    corsaro_report_merge_interval_results snaps ts = (none, 0) := by
  have hskip : (snaps.any (fun s => !(s.lastresultts == ts) && s.haltphase == 2)) = true := by
    rcases hhalt with ⟨s, hmem, hhp, hne⟩
    refine List.any_eq_true.mpr ⟨s, hmem, ?_⟩
    have h1 : (s.lastresultts == ts) = false := by
      simpa using hne
    have h2 : (s.haltphase == 2) = true := by
      simpa using hhp
    rw [h1, h2]
    rfl
  unfold corsaro_report_merge_interval_results
  rw [if_pos hskip]

/-- Witness for C7: one tracker completed interval 100, a second halted with
no tally for it; the merger suppresses all output and returns 0. -/
theorem c7_halt_suppresses_emission_witness :
    corsaro_report_merge_interval_results
      [{ lastresultts := 100, haltphase := 0,
         lastresult := [(0, { metricid := 0, srcips := 1, destips := 1,
                              packets := 3, bytes := 200 })] },
       { lastresultts := 0, haltphase := 2, lastresult := [] }] 100 = (none, 0) :=
  c7_halt_suppresses_emission _ 100 (by decide)
    ⟨{ lastresultts := 0, haltphase := 2, lastresult := [] }, by decide, by decide⟩

theorem testBit_ff (b : Nat) : (0xff : Nat).testBit b = decide (b < 8) := by
  have h : (0xff : Nat) = 2 ^ 8 - 1 := by norm_num
  rw [h, Nat.testBit_two_pow_sub_one]

theorem toaddByte_testBit (f l p : Nat) (_hp : p ≤ 65535)
    (h1 : f / 8 ≤ p / 8) (h2 : 8 * (p / 8) ≤ l) :
    (toaddByte f l (p / 8)).testBit (7 - p % 8) = (decide (f ≤ p) && decide (p ≤ l)) := by
  have hmod : p % 8 < 8 := Nat.mod_lt _ (by norm_num)
  have hdm : 8 * (p / 8) + p % 8 = p := Nat.div_add_mod p 8
  have hfd : 8 * (f / 8) + f % 8 = f := Nat.div_add_mod f 8
  have hfm : f % 8 < 8 := Nat.mod_lt _ (by norm_num)
  simp only [toaddByte]
  by_cases hmf : p / 8 * 8 < f
  · have hlow : ¬ 8 ≤ f - p / 8 * 8 := by omega
    rw [if_pos hmf, if_neg hlow]
    by_cases hl : l < p / 8 * 8 + 7
    · have hhigh : ¬ 8 ≤ p / 8 * 8 + 7 - l := by omega
      rw [if_pos hl, if_neg hhigh]
      rw [Nat.testBit_and, Nat.testBit_and, Nat.testBit_shiftLeft,
        Nat.testBit_shiftRight, testBit_ff, testBit_ff, testBit_ff]
      rw [← Bool.decide_and, ← Bool.decide_and, ← Bool.decide_and, ← Bool.decide_and]
      rw [decide_eq_decide]
      omega
    · rw [if_neg hl]
      rw [Nat.testBit_and, Nat.testBit_shiftRight, testBit_ff, testBit_ff]
      rw [← Bool.decide_and, ← Bool.decide_and]
      rw [decide_eq_decide]
      omega
  · rw [if_neg hmf]
    by_cases hl : l < p / 8 * 8 + 7
    · have hhigh : ¬ 8 ≤ p / 8 * 8 + 7 - l := by omega
      rw [if_pos hl, if_neg hhigh]
      rw [Nat.testBit_and, Nat.testBit_shiftLeft, testBit_ff, testBit_ff]
      rw [← Bool.decide_and, ← Bool.decide_and, ← Bool.decide_and]
      rw [decide_eq_decide]
      omega
    · rw [if_neg hl, testBit_ff]
      rw [← Bool.decide_and, decide_eq_decide]
      omega

theorem rangeLoop_apply (f l : Nat) : ∀ (fuel idx : Nat) (a : Nat → Nat) (j : Nat),
    rangeLoop f l fuel a idx j =
      if idx ≤ j ∧ j < idx + fuel ∧ j < 8192 ∧ 8 * j ≤ l then a j ||| toaddByte f l j
      else a j := by
  intro fuel
  induction fuel with
  | zero =>
      intro idx a j
      rw [if_neg (by omega)]
      rfl
  | succ n ih =>
      intro idx a j
      simp only [rangeLoop]
      by_cases h1 : idx < 8192
      · rw [if_pos h1]
        by_cases h2 : l < idx * 8
        · rw [if_pos h2, if_neg (by omega)]
        · rw [if_neg h2, ih]
          by_cases hj : j = idx
          · subst hj
            rw [if_neg (by omega), if_pos (by omega)]
            simp [updByte]
          · have hb : (j == idx) = false := by simpa using hj
            have hiff : (idx + 1 ≤ j ∧ j < idx + 1 + n ∧ j < 8192 ∧ 8 * j ≤ l)
                ↔ (idx ≤ j ∧ j < idx + (n + 1) ∧ j < 8192 ∧ 8 * j ≤ l) := by omega
            rw [if_congr hiff rfl rfl]
            simp only [updByte, hb, Bool.false_eq_true, if_false]
      · rw [if_neg h1, if_neg (by omega)]

theorem applyRange_byte (a : Nat → Nat) (f l j : Nat) (hf : f ≤ 65535) :
    applyRange a f l j =
      if f / 8 ≤ j ∧ j < 8192 ∧ 8 * j ≤ l then a j ||| toaddByte f l j else a j := by
  unfold applyRange
  rw [rangeLoop_apply]
  have hiff : (f / 8 ≤ j ∧ j < f / 8 + (8192 - f / 8) ∧ j < 8192 ∧ 8 * j ≤ l)
      ↔ (f / 8 ≤ j ∧ j < 8192 ∧ 8 * j ≤ l) := by omega
  rw [if_congr hiff rfl rfl]

theorem portBit_applyRange (a : Nat → Nat) (f l p : Nat)
    (hp : p ≤ 65535) (hfl : f ≤ l) (hl : l ≤ 65535) :
    portBitSet (applyRange a f l) p
      = (portBitSet a p || (decide (f ≤ p) && decide (p ≤ l))) := by
  unfold portBitSet
  rw [applyRange_byte a f l (p / 8) (le_trans hfl hl)]
  by_cases hcond : f / 8 ≤ p / 8 ∧ p / 8 < 8192 ∧ 8 * (p / 8) ≤ l
  · rw [if_pos hcond, Nat.testBit_or, toaddByte_testBit f l p hp hcond.1 hcond.2.2]
  · rw [if_neg hcond]
    have hno : ¬ (f ≤ p ∧ p ≤ l) := by omega
    by_cases hfp : f ≤ p
    · have hpl : ¬ p ≤ l := fun h2 => hno ⟨hfp, h2⟩
      simp [hpl]
    · simp [hfp]

theorem portBit_fold (p : Nat) (hp : p ≤ 65535) : ∀ (ranges : List (Nat × Nat)) (a : Nat → Nat),
    (∀ r ∈ ranges, r.1 ≤ r.2 ∧ r.2 ≤ 65535) →
    portBitSet (ranges.foldl (fun acc r => applyRange acc r.1 r.2) a) p
      = (portBitSet a p || ranges.any (fun r => decide (r.1 ≤ p) && decide (p ≤ r.2))) := by
  intro ranges
  induction ranges with
  | nil =>
      intro a _
      simp
  | cons r rest ih =>
      intro a hv
      have hr := hv r (List.mem_cons_self r rest)
      have hrest : ∀ x ∈ rest, x.1 ≤ x.2 ∧ x.2 ≤ 65535 :=
        fun x hx => hv x (List.mem_cons_of_mem r hx)
      show portBitSet (rest.foldl (fun acc x => applyRange acc x.1 x.2) (applyRange a r.1 r.2)) p = _
      rw [ih (applyRange a r.1 r.2) hrest,
        portBit_applyRange a r.1 r.2 p hp hr.1 hr.2]
      simp [Bool.or_assoc]

/-- Claim C8: after configuration parsing, the bit for port p in a port
bitmap is set exactly when either no port ranges were configured for it
(all ports allowed) or p lies inside at least one configured range, for
validated ranges with first ≤ last ≤ 65535 and p ≤ 65535. -/
theorem c8_port_bitmap_correct (ranges : List (Nat × Nat)) (p : Nat)
    (hv : ∀ r ∈ ranges, r.1 ≤ r.2 ∧ r.2 ≤ 65535) (hp : p ≤ 65535) :
    (portBitSet (buildPortBitmap ranges) p = true ↔
      (ranges = [] ∨ ∃ r ∈ ranges, r.1 ≤ p ∧ p ≤ r.2)) := by
  cases ranges with
  | nil =>
      constructor
      · intro _
        exact Or.inl rfl
      · intro _
        show ((0xff : Nat).testBit (7 - p % 8)) = true
        rw [testBit_ff]
        have : 7 - p % 8 < 8 := by omega
        simpa using this
  | cons r rest =>
      show portBitSet ((r :: rest).foldl (fun acc x => applyRange acc x.1 x.2) (fun _ => 0)) p
            = true ↔ _
      rw [portBit_fold p hp (r :: rest) (fun _ => 0) hv]
      have hzero : portBitSet (fun _ => 0) p = false := by
        unfold portBitSet
        exact Nat.zero_testBit _
      rw [hzero, Bool.false_or]
      rw [List.any_eq_true]
      constructor
      · intro ⟨x, hx, hb⟩
        refine Or.inr ⟨x, hx, ?_, ?_⟩
        · exact of_decide_eq_true ((Bool.and_eq_true _ _).mp hb).1
        · exact of_decide_eq_true ((Bool.and_eq_true _ _).mp hb).2
      · intro h
        rcases h with h | ⟨x, hx, h1, h2⟩
        · cases h
        · exact ⟨x, hx, by simp [h1, h2]⟩

/-- Witness for C8: with the single configured range 80-80 the bit for port
80 is set and the claim's right side holds for it; the hypotheses are
discharged at the concrete range list. -/
theorem c8_port_bitmap_correct_witness :
    portBitSet (buildPortBitmap [(80, 80)]) 80 = true ↔
      ([((80 : Nat), (80 : Nat))] = [] ∨ ∃ r ∈ [((80 : Nat), (80 : Nat))], r.1 ≤ 80 ∧ 80 ≤ r.2) :=
  c8_port_bitmap_correct [(80, 80)] 80 (by decide) (by decide)

/-- The role bitmask recorded for a metric id in an IP entry, read from the
structure that the dispatch in update_knownip_metric would consult. -/
def roleBits (iph : IpHash) (mid : Nat) : Nat :=
  if iph.metriccount ≤ METRIC_ARRAY_SIZE then (arrFind iph.firstmetrics mid).getD 0
  else (msetLookup iph.metricsseen mid).getD 0

/-- Structural invariant of an IP entry: while the entry is in inline-array
mode its array holds each metric id at most once and its khash map is still
empty. -/
def IpGood (iph : IpHash) : Prop :=
  iph.metriccount ≤ METRIC_ARRAY_SIZE →
    ((iph.firstmetrics.map StandaloneMetric.metricid).Nodup ∧ iph.metricsseen = [])

theorem msetLookup_msetSet_self (s : List (Nat × Nat)) (k v : Nat) :
    msetLookup (msetSet s k v) k = some v := by
  induction s with
  | nil => simp [msetSet, msetLookup]
  | cons p rest ih =>
      by_cases h : (p.1 == k) = true
      · simp [msetSet, h, msetLookup]
      · simp [msetSet, h, msetLookup, ih]

theorem msetLookup_msetSet_other (s : List (Nat × Nat)) (k v k' : Nat) (h : k' ≠ k) :
    msetLookup (msetSet s k v) k' = msetLookup s k' := by
  have hkk : ¬ ((k == k') = true) := by
    simp only [beq_iff_eq]
    exact fun he => h he.symm
  induction s with
  | nil =>
      simp only [msetSet, msetLookup]
      rw [if_neg hkk]
  | cons p rest ih =>
      by_cases hp : (p.1 == k) = true
      · have hp1 : p.1 = k := by simpa using hp
        have hpk : ¬ ((p.1 == k') = true) := by
          rw [hp1]
          exact hkk
        simp only [msetSet, hp, if_true, msetLookup]
        rw [if_neg hkk, if_neg hpk]
      · simp [msetSet, hp, msetLookup, ih]

theorem msetLookup_append (s t : List (Nat × Nat)) (k : Nat) :
    msetLookup (s ++ t) k
      = match msetLookup s k with
        | some v => some v
        | none => msetLookup t k := by
  induction s with
  | nil => simp [msetLookup]
  | cons p rest ih =>
      by_cases h : (p.1 == k) = true
      · simp [msetLookup, h]
      · simp [msetLookup, h, ih]

theorem arrFind_eq_none (l : List StandaloneMetric) (k : Nat) :
    arrFind l k = none ↔ ∀ sm ∈ l, sm.metricid ≠ k := by
  induction l with
  | nil => simp [arrFind]
  | cons sm rest ih =>
      by_cases h : (sm.metricid == k) = true
      · simp only [arrFind, h, if_true]
        constructor
        · intro hc
          cases hc
        · intro hall
          exact absurd (by simpa using h) (hall sm (List.mem_cons_self sm rest))
      · simp only [arrFind, h, Bool.false_eq_true, if_false]
        rw [ih]
        constructor
        · intro hall x hx
          rcases List.mem_cons.mp hx with rfl | hx2
          · simpa using h
          · exact hall x hx2
        · intro hall x hx
          exact hall x (List.mem_cons_of_mem sm hx)

theorem arrFind_arrSetval_self (l : List StandaloneMetric) (k v mv : Nat)
    (h : arrFind l k = some mv) : arrFind (arrSetval l k v) k = some v := by
  induction l with
  | nil => cases h
  | cons sm rest ih =>
      by_cases hk : (sm.metricid == k) = true
      · simp [arrSetval, hk, arrFind]
      · simp only [arrFind, hk, Bool.false_eq_true, if_false] at h
        simp [arrSetval, hk, arrFind, ih h]

theorem arrFind_arrSetval_other (l : List StandaloneMetric) (k v k' : Nat) (h : k' ≠ k) :
    arrFind (arrSetval l k v) k' = arrFind l k' := by
  induction l with
  | nil => simp [arrSetval]
  | cons sm rest ih =>
      by_cases hk : (sm.metricid == k) = true
      · have hne : (k == k') = false := by
          simpa using fun he => h he.symm
        have hsm : sm.metricid = k := by simpa using hk
        have hsm2 : (sm.metricid == k') = false := by
          rw [hsm]
          exact hne
        simp [arrSetval, hk, arrFind, hne, hsm2]
      · simp [arrSetval, hk, arrFind, ih]

theorem arrSetval_keys (l : List StandaloneMetric) (k v : Nat) :
    (arrSetval l k v).map StandaloneMetric.metricid = l.map StandaloneMetric.metricid := by
  induction l with
  | nil => rfl
  | cons sm rest ih =>
      by_cases hk : (sm.metricid == k) = true
      · have hsm : sm.metricid = k := by simpa using hk
        simp [arrSetval, hk, hsm]
      · simp [arrSetval, hk, ih]

theorem arrFind_append (l1 l2 : List StandaloneMetric) (k : Nat) :
    arrFind (l1 ++ l2) k
      = match arrFind l1 k with
        | some v => some v
        | none => arrFind l2 k := by
  induction l1 with
  | nil => simp [arrFind]
  | cons sm rest ih =>
      by_cases h : (sm.metricid == k) = true
      · simp [arrFind, h]
      · simp [arrFind, h, ih]

theorem tallyLookup_tallySet_self (t : List (Nat × MetricTally)) (k : Nat) (m : MetricTally) :
    tallyLookup (tallySet t k m) k = m := by
  induction t with
  | nil => simp [tallySet, tallyLookup]
  | cons p rest ih =>
      by_cases h : (p.1 == k) = true
      · simp [tallySet, h, tallyLookup]
      · simp [tallySet, h, tallyLookup, ih]

theorem tallyLookup_tallySet_other (t : List (Nat × MetricTally)) (k : Nat) (m : MetricTally)
    (k' : Nat) (h : k' ≠ k) : tallyLookup (tallySet t k m) k' = tallyLookup t k' := by
  induction t with
  | nil =>
      simp only [tallySet, tallyLookup]
      rw [if_neg (by simpa using fun he => h he.symm)]
  | cons p rest ih =>
      by_cases hp : (p.1 == k) = true
      · have hp1 : p.1 = k := by simpa using hp
        have hp2 : (p.1 == k') = false := by
          rw [hp1]
          simpa using fun he => h he.symm
        simp only [tallySet, hp, if_true, tallyLookup]
        rw [if_neg (by simpa using fun he => h he.symm), if_neg (by simpa using hp2)]
      · simp [tallySet, hp, tallyLookup, ih]

theorem beq_and_one (metval : Nat) : ((metval &&& 1 == 0) : Bool) = !metval.testBit 0 := by
  rw [Nat.and_one_is_mod, Nat.testBit_zero]
  rcases Nat.mod_two_eq_zero_or_one metval with h | h <;> simp [h]

theorem beq_and_two (metval : Nat) : ((metval &&& 2 == 0) : Bool) = !metval.testBit 1 := by
  have h2 : (2 : Nat) = 2 ^ 1 := rfl
  rw [h2, Nat.and_two_pow]
  cases h : metval.testBit 1 <;> simp [h]

theorem testBit_or_one_zero (n : Nat) : (n ||| 1).testBit 0 = true := by
  rw [Nat.testBit_or, (by decide : (1 : Nat).testBit 0 = true)]
  simp

theorem testBit_or_one_one (n : Nat) : (n ||| 1).testBit 1 = n.testBit 1 := by
  rw [Nat.testBit_or, (by decide : (1 : Nat).testBit 1 = false)]
  simp

theorem testBit_or_two_zero (n : Nat) : (n ||| 2).testBit 0 = n.testBit 0 := by
  rw [Nat.testBit_or, (by decide : (2 : Nat).testBit 0 = false)]
  simp

theorem testBit_or_two_one (n : Nat) : (n ||| 2).testBit 1 = true := by
  rw [Nat.testBit_or, (by decide : (2 : Nat).testBit 1 = true)]
  simp

theorem or_one_of_testBit (n : Nat) (h : n.testBit 0 = true) : n ||| 1 = n := by
  apply Nat.eq_of_testBit_eq
  intro i
  rw [Nat.testBit_or]
  cases i with
  | zero => simp [h]
  | succ j =>
      have h1 : (1 : Nat).testBit (j + 1) = false := by
        have : (1 : Nat) = 2 ^ 1 - 1 := rfl
        rw [this, Nat.testBit_two_pow_sub_one]
        simp
      simp [h1]

theorem or_two_of_testBit (n : Nat) (h : n.testBit 1 = true) : n ||| 2 = n := by
  apply Nat.eq_of_testBit_eq
  intro i
  rw [Nat.testBit_or]
  by_cases hi : i = 1
  · subst hi
    have : (2 : Nat) = 2 ^ 1 := rfl
    rw [this, Nat.testBit_two_pow_self]
    simp [h]
  · have h2 : (2 : Nat).testBit i = false := by
      have : (2 : Nat) = 2 ^ 1 := rfl
      rw [this]
      exact Nat.testBit_two_pow_of_ne (fun he => hi he.symm)
    simp [h2]

theorem updRole_spec (metval : Nat) (issrc : Bool) (m : MetricTally) :
    (updRole metval issrc m).1 = metval ||| (if issrc then 1 else 2) ∧
    (updRole metval issrc m).2.srcips
      = m.srcips + (if issrc = true ∧ metval.testBit 0 = false then 1 else 0) ∧
    (updRole metval issrc m).2.destips
      = m.destips + (if issrc = false ∧ metval.testBit 1 = false then 1 else 0) ∧
    (updRole metval issrc m).2.packets = m.packets ∧
    (updRole metval issrc m).2.bytes = m.bytes ∧
    (updRole metval issrc m).2.metricid = m.metricid := by
  unfold updRole
  cases issrc with
  | true =>
      rw [beq_and_one]
      cases hb : metval.testBit 0 with
      | false => simp
      | true => simp [or_one_of_testBit metval hb]
  | false =>
      rw [beq_and_two]
      cases hb : metval.testBit 1 with
      | false => simp
      | true => simp [or_two_of_testBit metval hb]

theorem update_metric_map_spec (iph : IpHash) (mid : Nat) (issrc : Bool) (m : MetricTally) :
    (update_metric_map iph mid issrc m).1.ipaddr = iph.ipaddr ∧
    (update_metric_map iph mid issrc m).1.firstmetrics = iph.firstmetrics ∧
    (update_metric_map iph mid issrc m).1.metriccount
      = (if (msetLookup iph.metricsseen mid).isSome then iph.metriccount
         else iph.metriccount + 1) ∧
    msetLookup (update_metric_map iph mid issrc m).1.metricsseen mid
      = some ((updRole ((msetLookup iph.metricsseen mid).getD 0) issrc m).1) ∧
    (∀ k, k ≠ mid → msetLookup (update_metric_map iph mid issrc m).1.metricsseen k
      = msetLookup iph.metricsseen k) ∧
    (update_metric_map iph mid issrc m).2
      = (updRole ((msetLookup iph.metricsseen mid).getD 0) issrc m).2 := by
  cases h : msetLookup iph.metricsseen mid with
  | some v =>
      have hred : update_metric_map iph mid issrc m
          = ({ iph with metricsseen := msetSet iph.metricsseen mid (updRole v issrc m).1 },
             (updRole v issrc m).2) := by
        unfold update_metric_map
        rw [h]
      rw [hred]
      refine ⟨rfl, rfl, by simp, ?_, ?_, by simp⟩
      · rw [msetLookup_msetSet_self]
        rfl
      · intro k hk
        exact msetLookup_msetSet_other _ _ _ _ hk
  | none =>
      have hred : update_metric_map iph mid issrc m
          = ({ iph with
                metricsseen := msetSet (iph.metricsseen ++ [(mid, 0)]) mid (updRole 0 issrc m).1,
                metriccount := iph.metriccount + 1 },
             (updRole 0 issrc m).2) := by
        unfold update_metric_map
        rw [h]
      rw [hred]
      refine ⟨rfl, rfl, by simp, ?_, ?_, by simp⟩
      · rw [msetLookup_msetSet_self]
        rfl
      · intro k hk
        rw [msetLookup_msetSet_other _ _ _ _ hk, msetLookup_append]
        cases hs : msetLookup iph.metricsseen k with
        | some w => rfl
        | none =>
            simp only [msetLookup]
            rw [if_neg (by simpa using fun he => hk he.symm)]

theorem promote_lookup : ∀ (l : List StandaloneMetric) (base : List (Nat × Nat)),
    (l.map StandaloneMetric.metricid).Nodup →
    (∀ sm ∈ l, msetLookup base sm.metricid = none) →
    ∀ k, msetLookup (promoteArray l base) k
      = match arrFind l k with
        | some v => some v
        | none => msetLookup base k := by
  intro l
  induction l with
  | nil =>
      intro base _ _ k
      simp [promoteArray, arrFind]
  | cons sm rest ih =>
      intro base hnd hdis k
      have hcons : (∀ x ∈ rest, ¬ x.metricid = sm.metricid) ∧
          (rest.map StandaloneMetric.metricid).Nodup := by simpa using hnd
      have hnotin : sm.metricid ∉ rest.map StandaloneMetric.metricid := by
        intro hmem
        rcases List.mem_map.mp hmem with ⟨x, hx, hxe⟩
        exact hcons.1 x hx hxe
      have hstep : promoteArray (sm :: rest) base
          = promoteArray rest (msetSet base sm.metricid sm.metval) := rfl
      rw [hstep]
      have hdis2 : ∀ x ∈ rest,
          msetLookup (msetSet base sm.metricid sm.metval) x.metricid = none := by
        intro x hx
        have hne : x.metricid ≠ sm.metricid := by
          intro he
          exact hnotin (he ▸ List.mem_map_of_mem StandaloneMetric.metricid hx)
        rw [msetLookup_msetSet_other _ _ _ _ hne]
        exact hdis x (List.mem_cons_of_mem sm hx)
      rw [ih _ hcons.2 hdis2 k]
      by_cases hk : (sm.metricid == k) = true
      · have hk1 : sm.metricid = k := by simpa using hk
        have hrest : arrFind rest k = none := by
          rw [arrFind_eq_none]
          intro x hx he
          exact hnotin (hk1 ▸ he ▸ List.mem_map_of_mem StandaloneMetric.metricid hx)
        rw [hrest]
        simp only [arrFind, hk, if_true]
        rw [← hk1, msetLookup_msetSet_self]
      · have hk1 : sm.metricid ≠ k := by simpa using hk
        simp only [arrFind, hk, Bool.false_eq_true, if_false]
        cases hr : arrFind rest k with
        | some v => rfl
        | none =>
            rw [msetLookup_msetSet_other _ _ _ _ (fun he => hk1 he.symm)]

theorem roleBits_array (iph : IpHash) (k : Nat) (h : iph.metriccount ≤ METRIC_ARRAY_SIZE) :
    roleBits iph k = (arrFind iph.firstmetrics k).getD 0 := by
  unfold roleBits
  rw [if_pos h]

theorem roleBits_map (iph : IpHash) (k : Nat) (h : ¬ iph.metriccount ≤ METRIC_ARRAY_SIZE) :
    roleBits iph k = (msetLookup iph.metricsseen k).getD 0 := by
  unfold roleBits
  rw [if_neg h]

theorem metricSetUpdate_spec (iph : IpHash) (mid : Nat) (issrc : Bool) (m : MetricTally)
    (hg : IpGood iph) :
    IpGood (metricSetUpdate iph mid issrc m).1 ∧
    (metricSetUpdate iph mid issrc m).1.ipaddr = iph.ipaddr ∧
    iph.metriccount ≤ (metricSetUpdate iph mid issrc m).1.metriccount ∧
    roleBits (metricSetUpdate iph mid issrc m).1 mid
      = roleBits iph mid ||| (if issrc then 1 else 2) ∧
    (∀ k, k ≠ mid → roleBits (metricSetUpdate iph mid issrc m).1 k = roleBits iph k) ∧
    (metricSetUpdate iph mid issrc m).2 = (updRole (roleBits iph mid) issrc m).2 := by
  by_cases hmode : iph.metriccount ≤ METRIC_ARRAY_SIZE
  · obtain ⟨hnd, hseen⟩ := hg hmode
    have hrb : ∀ k, roleBits iph k = (arrFind iph.firstmetrics k).getD 0 :=
      fun k => roleBits_array iph k hmode
    have hdisp : metricSetUpdate iph mid issrc m = update_metric_array iph mid issrc m := by
      unfold metricSetUpdate
      rw [if_pos hmode]
    rw [hdisp]
    cases hf : arrFind iph.firstmetrics mid with
    | some mv =>
        have h1 : (update_metric_array iph mid issrc m).1
            = { iph with firstmetrics :=
                  arrSetval iph.firstmetrics mid (updRole mv issrc m).1 } := by
          unfold update_metric_array
          rw [hf]
        have h2 : (update_metric_array iph mid issrc m).2 = (updRole mv issrc m).2 := by
          unfold update_metric_array
          rw [hf]
        have hrbmid : roleBits iph mid = mv := by
          rw [hrb, hf]
          rfl
        refine ⟨?_, ?_, ?_, ?_, ?_, ?_⟩
        · rw [h1]
          intro hle
          refine ⟨?_, hseen⟩
          rw [arrSetval_keys]
          exact hnd
        · rw [h1]
        · rw [h1]
        · rw [h1, hrbmid]
          rw [roleBits_array
            { iph with firstmetrics := arrSetval iph.firstmetrics mid (updRole mv issrc m).1 }
            mid hmode]
          show (arrFind (arrSetval iph.firstmetrics mid (updRole mv issrc m).1) mid).getD 0 = _
          rw [arrFind_arrSetval_self _ _ _ _ hf]
          rw [Option.getD_some, (updRole_spec mv issrc m).1]
        · intro k hk
          rw [h1, hrb k]
          rw [roleBits_array
            { iph with firstmetrics := arrSetval iph.firstmetrics mid (updRole mv issrc m).1 }
            k hmode]
          show (arrFind (arrSetval iph.firstmetrics mid (updRole mv issrc m).1) k).getD 0
              = (arrFind iph.firstmetrics k).getD 0
          rw [arrFind_arrSetval_other _ _ _ _ hk]
        · rw [h2, hrbmid]
    | none =>
        have hrbmid : roleBits iph mid = 0 := by
          rw [hrb, hf]
          rfl
        by_cases hfull : (iph.metriccount == METRIC_ARRAY_SIZE) = true
        · have hred : update_metric_array iph mid issrc m
              = update_metric_map
                  { iph with metricsseen := promoteArray iph.firstmetrics iph.metricsseen }
                  mid issrc m := by
            unfold update_metric_array
            rw [hf, if_pos hfull]
          rw [hred]
          have hplook : ∀ k,
              msetLookup (promoteArray iph.firstmetrics iph.metricsseen) k
                = arrFind iph.firstmetrics k := by
            intro k
            rw [hseen, promote_lookup iph.firstmetrics [] hnd (by intro sm _; rfl) k]
            cases hr : arrFind iph.firstmetrics k <;> rfl
          obtain ⟨ha, hfm, hcount, hlookmid, hlookother, hsnd⟩ :=
            update_metric_map_spec
              { iph with metricsseen := promoteArray iph.firstmetrics iph.metricsseen }
              mid issrc m
          have hl2 : msetLookup ({ iph with
              metricsseen := promoteArray iph.firstmetrics iph.metricsseen } :
              IpHash).metricsseen mid = none := by
            show msetLookup (promoteArray iph.firstmetrics iph.metricsseen) mid = none
            rw [hplook, hf]
          rw [hl2] at hcount hlookmid hsnd
          have hcount2 : (update_metric_map
              { iph with metricsseen := promoteArray iph.firstmetrics iph.metricsseen }
              mid issrc m).1.metriccount = iph.metriccount + 1 := by
            rw [hcount]
            rfl
          have hgt : METRIC_ARRAY_SIZE < (update_metric_map
              { iph with metricsseen := promoteArray iph.firstmetrics iph.metricsseen }
              mid issrc m).1.metriccount := by
            rw [hcount2]
            have : iph.metriccount = METRIC_ARRAY_SIZE := by simpa using hfull
            omega
          refine ⟨?_, ha, by omega, ?_, ?_, ?_⟩
          · intro hle
            omega
          · rw [hrbmid]
            rw [roleBits_map (update_metric_map
                { iph with metricsseen := promoteArray iph.firstmetrics iph.metricsseen }
                mid issrc m).1 mid (by omega)]
            rw [hlookmid]
            rw [Option.getD_some]
            show (updRole 0 issrc m).1 = _
            rw [(updRole_spec 0 issrc m).1]
          · intro k hk
            rw [hrb k]
            rw [roleBits_map (update_metric_map
                { iph with metricsseen := promoteArray iph.firstmetrics iph.metricsseen }
                mid issrc m).1 k (by omega)]
            rw [hlookother k hk]
            show (msetLookup (promoteArray iph.firstmetrics iph.metricsseen) k).getD 0 = _
            rw [hplook]
          · rw [hsnd, hrbmid]
            rfl
        · have h1 : (update_metric_array iph mid issrc m).1
              = { iph with
                    firstmetrics := iph.firstmetrics
                      ++ [{ metricid := mid, metval := (updRole 0 issrc m).1 }],
                    metriccount := iph.metriccount + 1 } := by
            unfold update_metric_array
            rw [hf, if_neg hfull]
          have h2 : (update_metric_array iph mid issrc m).2 = (updRole 0 issrc m).2 := by
            unfold update_metric_array
            rw [hf, if_neg hfull]
          have hlt : iph.metriccount < METRIC_ARRAY_SIZE := by
            have : iph.metriccount ≠ METRIC_ARRAY_SIZE := by simpa using hfull
            omega
          have hnotin : mid ∉ iph.firstmetrics.map StandaloneMetric.metricid := by
            intro hmem
            rcases List.mem_map.mp hmem with ⟨x, hx, hxe⟩
            exact (arrFind_eq_none _ _ |>.mp hf) x hx hxe
          have hle2 : ({ iph with
              firstmetrics := iph.firstmetrics
                ++ [{ metricid := mid, metval := (updRole 0 issrc m).1 }],
              metriccount := iph.metriccount + 1 } : IpHash).metriccount
              ≤ METRIC_ARRAY_SIZE := by
            show iph.metriccount + 1 ≤ METRIC_ARRAY_SIZE
            omega
          refine ⟨?_, ?_, ?_, ?_, ?_, ?_⟩
          · rw [h1]
            intro hle
            refine ⟨?_, hseen⟩
            rw [List.map_append, List.nodup_append]
            refine ⟨hnd, by simp, ?_⟩
            intro a ha hb
            simp only [List.map_cons, List.map_nil, List.mem_singleton] at hb
            exact hnotin (hb ▸ ha)
          · rw [h1]
          · rw [h1]
            show iph.metriccount ≤ iph.metriccount + 1
            omega
          · rw [h1, hrbmid]
            rw [roleBits_array _ mid hle2]
            show (arrFind (iph.firstmetrics
                ++ [{ metricid := mid, metval := (updRole 0 issrc m).1 }]) mid).getD 0 = _
            rw [arrFind_append, hf]
            simp only [arrFind, beq_self_eq_true, if_true]
            rw [Option.getD_some, (updRole_spec 0 issrc m).1]
          · intro k hk
            rw [h1, hrb k]
            rw [roleBits_array _ k hle2]
            show (arrFind (iph.firstmetrics
                ++ [{ metricid := mid, metval := (updRole 0 issrc m).1 }]) k).getD 0
              = (arrFind iph.firstmetrics k).getD 0
            rw [arrFind_append]
            cases hr : arrFind iph.firstmetrics k with
            | some v => rfl
            | none =>
                simp only [arrFind]
                rw [if_neg (by simpa using fun he => hk he.symm)]
          · rw [h2, hrbmid]
  · have hdisp : metricSetUpdate iph mid issrc m = update_metric_map iph mid issrc m := by
      unfold metricSetUpdate
      rw [if_neg hmode]
    rw [hdisp]
    obtain ⟨ha, hfm, hcount, hlookmid, hlookother, hsnd⟩ := update_metric_map_spec iph mid issrc m
    have hgt : METRIC_ARRAY_SIZE < iph.metriccount := by omega
    have hge : iph.metriccount ≤ (update_metric_map iph mid issrc m).1.metriccount := by
      rw [hcount]
      cases hs : (msetLookup iph.metricsseen mid).isSome <;> simp
    have hrb : ∀ k, roleBits iph k = (msetLookup iph.metricsseen k).getD 0 :=
      fun k => roleBits_map iph k hmode
    refine ⟨?_, ha, hge, ?_, ?_, ?_⟩
    · intro hle
      omega
    · rw [hrb mid]
      rw [roleBits_map (update_metric_map iph mid issrc m).1 mid (by omega)]
      rw [hlookmid]
      rw [Option.getD_some, (updRole_spec _ issrc m).1]
    · intro k hk
      rw [hrb k]
      rw [roleBits_map (update_metric_map iph mid issrc m).1 k (by omega)]
      rw [hlookother k hk]
    · rw [hsnd, hrb]

/-- The packet/byte part of update_knownip_metric (lines 768-773), as a
function of the fetched tally. -/
def mtAdd (m : MetricTally) (iplen : Nat) : MetricTally :=
  if 0 < iplen then { m with packets := m.packets + 1, bytes := m.bytes + iplen } else m

theorem mtAdd_fields (m : MetricTally) (iplen : Nat) :
    (mtAdd m iplen).srcips = m.srcips ∧ (mtAdd m iplen).destips = m.destips ∧
    (mtAdd m iplen).packets = m.packets + (if 0 < iplen then 1 else 0) ∧
    (mtAdd m iplen).bytes = m.bytes + iplen := by
  unfold mtAdd
  by_cases h : 0 < iplen
  · rw [if_pos h, if_pos h]
    exact ⟨rfl, rfl, rfl, rfl⟩
  · rw [if_neg h, if_neg h]
    have h0 : iplen = 0 := by omega
    simp [h0]

theorem update_knownip_metric_spec (mid : Nat) (iph : IpHash) (issrc : Bool) (iplen : Nat)
    (tally : List (Nat × MetricTally)) (hg : IpGood iph) :
    IpGood (update_knownip_metric mid iph issrc iplen tally).1 ∧
    (update_knownip_metric mid iph issrc iplen tally).1.ipaddr = iph.ipaddr ∧
    roleBits (update_knownip_metric mid iph issrc iplen tally).1 mid
      = roleBits iph mid ||| (if issrc then 1 else 2) ∧
    (∀ k, k ≠ mid →
      roleBits (update_knownip_metric mid iph issrc iplen tally).1 k = roleBits iph k) ∧
    (tallyLookup (update_knownip_metric mid iph issrc iplen tally).2 mid).srcips
      = (tallyLookup tally mid).srcips
        + (if issrc = true ∧ (roleBits iph mid).testBit 0 = false then 1 else 0) ∧
    (tallyLookup (update_knownip_metric mid iph issrc iplen tally).2 mid).destips
      = (tallyLookup tally mid).destips
        + (if issrc = false ∧ (roleBits iph mid).testBit 1 = false then 1 else 0) ∧
    (tallyLookup (update_knownip_metric mid iph issrc iplen tally).2 mid).packets
      = (tallyLookup tally mid).packets + (if 0 < iplen then 1 else 0) ∧
    (tallyLookup (update_knownip_metric mid iph issrc iplen tally).2 mid).bytes
      = (tallyLookup tally mid).bytes + iplen ∧
    (∀ k, k ≠ mid →
      tallyLookup (update_knownip_metric mid iph issrc iplen tally).2 k
        = tallyLookup tally k) := by
  have hfst : (update_knownip_metric mid iph issrc iplen tally).1
      = (metricSetUpdate iph mid issrc (mtAdd (tallyLookup tally mid) iplen)).1 := rfl
  have hsnd : (update_knownip_metric mid iph issrc iplen tally).2
      = tallySet tally mid
          (metricSetUpdate iph mid issrc (mtAdd (tallyLookup tally mid) iplen)).2 := rfl
  obtain ⟨s1, s2, s3, s4, s5, s6⟩ :=
    metricSetUpdate_spec iph mid issrc (mtAdd (tallyLookup tally mid) iplen) hg
  obtain ⟨u1, u2, u3, u4, u5, u6⟩ :=
    updRole_spec (roleBits iph mid) issrc (mtAdd (tallyLookup tally mid) iplen)
  obtain ⟨a1, a2, a3, a4⟩ := mtAdd_fields (tallyLookup tally mid) iplen
  refine ⟨?_, ?_, ?_, ?_, ?_, ?_, ?_, ?_, ?_⟩
  · rw [hfst]
    exact s1
  · rw [hfst]
    exact s2
  · rw [hfst]
    exact s4
  · intro k hk
    rw [hfst]
    exact s5 k hk
  · rw [hsnd, tallyLookup_tallySet_self, s6, u2, a1]
  · rw [hsnd, tallyLookup_tallySet_self, s6, u3, a2]
  · rw [hsnd, tallyLookup_tallySet_self, s6, u4, a3]
  · rw [hsnd, tallyLookup_tallySet_self, s6, u5, a4]
  · intro k hk
    rw [hsnd, tallyLookup_tallySet_other _ _ _ _ hk]

/-- The tag loop of process_msg_body for one body, acting on the looked-up
IP entry and the tally map. -/
def tagsFold (issrc : Bool) (size : Nat) (tags : List Nat) (iph : IpHash)
    (tally : List (Nat × MetricTally)) : IpHash × List (Nat × MetricTally) :=
  tags.foldl (fun acc mid => update_knownip_metric mid acc.1 issrc size acc.2) (iph, tally)

theorem tagsFold_spec (issrc : Bool) (size : Nat) :
    ∀ (tags : List Nat) (iph : IpHash) (tally : List (Nat × MetricTally)), IpGood iph →
    IpGood (tagsFold issrc size tags iph tally).1 ∧
    (tagsFold issrc size tags iph tally).1.ipaddr = iph.ipaddr ∧
    (∀ mid, roleBits (tagsFold issrc size tags iph tally).1 mid
        = roleBits iph mid ||| (if mid ∈ tags then (if issrc then 1 else 2) else 0)) ∧
    (∀ mid, (tallyLookup (tagsFold issrc size tags iph tally).2 mid).srcips
        = (tallyLookup tally mid).srcips
          + (if issrc = true ∧ mid ∈ tags ∧ (roleBits iph mid).testBit 0 = false
             then 1 else 0)) ∧
    (∀ mid, (tallyLookup (tagsFold issrc size tags iph tally).2 mid).destips
        = (tallyLookup tally mid).destips
          + (if issrc = false ∧ mid ∈ tags ∧ (roleBits iph mid).testBit 1 = false
             then 1 else 0)) ∧
    (∀ mid, (tallyLookup (tagsFold issrc size tags iph tally).2 mid).packets
        = (tallyLookup tally mid).packets
          + (if 0 < size then tags.count mid else 0)) ∧
    (∀ mid, (tallyLookup (tagsFold issrc size tags iph tally).2 mid).bytes
        = (tallyLookup tally mid).bytes + size * tags.count mid) := by
  intro tags
  induction tags with
  | nil =>
      intro iph tally hg
      refine ⟨hg, rfl, ?_, ?_, ?_, ?_, ?_⟩
      · intro mid
        simp [tagsFold]
      · intro mid
        simp [tagsFold]
      · intro mid
        simp [tagsFold]
      · intro mid
        simp [tagsFold]
      · intro mid
        simp [tagsFold]
  | cons t rest ih =>
      intro iph tally hg
      obtain ⟨p1, p2, p3, p4, p5, p6, p7, p8, p9⟩ :=
        update_knownip_metric_spec t iph issrc size tally hg
      obtain ⟨q1, q2, q3, q4, q5, q6, q7⟩ :=
        ih (update_knownip_metric t iph issrc size tally).1
          (update_knownip_metric t iph issrc size tally).2 p1
      have hC : tagsFold issrc size (t :: rest) iph tally
          = tagsFold issrc size rest (update_knownip_metric t iph issrc size tally).1
              (update_knownip_metric t iph issrc size tally).2 := rfl
      rw [hC]
      refine ⟨q1, by rw [q2, p2], ?_, ?_, ?_, ?_, ?_⟩
      · intro mid
        rw [q3 mid]
        by_cases hmt : mid = t
        · subst hmt
          rw [p3]
          by_cases hmr : mid ∈ rest
          · rw [if_pos hmr, if_pos (List.mem_cons_self mid rest)]
            rw [Nat.or_assoc, Nat.or_self]
          · rw [if_neg hmr, Nat.or_zero, if_pos (List.mem_cons_self mid rest)]
        · rw [p4 mid hmt]
          by_cases hmr : mid ∈ rest
          · rw [if_pos hmr, if_pos (List.mem_cons_of_mem t hmr)]
          · rw [if_neg hmr, if_neg (by simp [List.mem_cons, hmt, hmr])]
      · intro mid
        rw [q4 mid]
        by_cases hmt : mid = t
        · subst hmt
          rw [p5, p3]
          cases issrc with
          | true => simp [show Nat.testBit 1 0 = true from by decide]
          | false => simp
        · rw [p9 mid hmt, p4 mid hmt]
          simp [List.mem_cons, hmt]
      · intro mid
        rw [q5 mid]
        by_cases hmt : mid = t
        · subst hmt
          rw [p6, p3]
          cases issrc with
          | true => simp
          | false => simp [show Nat.testBit 2 1 = true from by decide]
        · rw [p9 mid hmt, p4 mid hmt]
          simp [List.mem_cons, hmt]
      · intro mid
        rw [q6 mid]
        by_cases hmt : mid = t
        · subst hmt
          rw [p7, List.count_cons_self]
          by_cases hs : 0 < size
          · simp [hs]
            omega
          · simp [hs]
        · rw [p9 mid hmt, List.count_cons_of_ne hmt]
      · intro mid
        rw [q7 mid]
        by_cases hmt : mid = t
        · subst hmt
          rw [p8, List.count_cons_self]
          ring
        · rw [p9 mid hmt, List.count_cons_of_ne hmt]

/-- The role bitmask recorded for (ip, mid) in a knownips map; an absent IP
behaves as a fresh entry with no recorded roles. -/
def stateRole (knownips : List IpHash) (ip mid : Nat) : Nat :=
  roleBits ((ipLookup knownips ip).getD (newIpHash ip)) mid

/-- Whether some processed update body observed ip as a source carrying the
tag mid. -/
def srcSeen (bodies : List MsgBody) (ip mid : Nat) : Bool :=
  bodies.any (fun b => b.ipaddr == ip && b.issrc && b.tags.contains mid)

/-- Whether some processed update body observed ip as a destination carrying
the tag mid. -/
def dstSeen (bodies : List MsgBody) (ip mid : Nat) : Bool :=
  bodies.any (fun b => b.ipaddr == ip && !b.issrc && b.tags.contains mid)

/-- The distinct source IPs among the bodies that carry the tag mid. -/
def srcContrib (bodies : List MsgBody) (mid : Nat) : Finset Nat :=
  ((bodies.filter (fun b => b.issrc && b.tags.contains mid)).map MsgBody.ipaddr).toFinset

/-- The distinct destination IPs among the bodies that carry the tag mid. -/
def dstContrib (bodies : List MsgBody) (mid : Nat) : Finset Nat :=
  ((bodies.filter (fun b => !b.issrc && b.tags.contains mid)).map MsgBody.ipaddr).toFinset

/-- The packet total that the bodies contribute to the tag mid. -/
def sumPackets (bodies : List MsgBody) (mid : Nat) : Nat :=
  (bodies.map (fun b => if 0 < b.size then b.tags.count mid else 0)).sum

/-- The byte total that the bodies contribute to the tag mid. -/
def sumBytes (bodies : List MsgBody) (mid : Nat) : Nat :=
  (bodies.map (fun b => b.size * b.tags.count mid)).sum

theorem contains_eq_decide_mem (l : List Nat) (a : Nat) :
    l.contains a = decide (a ∈ l) := by
  by_cases h : a ∈ l
  · simp [h, List.elem_iff.mpr h]
  · have h2 : l.elem a ≠ true := fun hc => h (List.elem_iff.mp hc)
    simp only [h, decide_False]
    exact Bool.eq_false_iff.mpr h2

theorem IpGood_new (ip : Nat) : IpGood (newIpHash ip) := by
  intro _
  exact ⟨List.nodup_nil, rfl⟩

theorem ipLookup_mem : ∀ (l : List IpHash) (ip : Nat) (iph : IpHash),
    ipLookup l ip = some iph → iph ∈ l := by
  intro l
  induction l with
  | nil => intro ip iph h; cases h
  | cons x rest ih =>
      intro ip iph h
      unfold ipLookup at h
      by_cases hx : (x.ipaddr == ip) = true
      · rw [if_pos hx] at h
        injection h with h
        exact h ▸ List.mem_cons_self x rest
      · rw [if_neg hx] at h
        exact List.mem_cons_of_mem x (ih ip iph h)

theorem ipLookup_addr : ∀ (l : List IpHash) (ip : Nat) (iph : IpHash),
    ipLookup l ip = some iph → iph.ipaddr = ip := by
  intro l
  induction l with
  | nil => intro ip iph h; cases h
  | cons x rest ih =>
      intro ip iph h
      unfold ipLookup at h
      by_cases hx : (x.ipaddr == ip) = true
      · rw [if_pos hx] at h
        injection h with h
        rw [← h]
        simpa using hx
      · rw [if_neg hx] at h
        exact ih ip iph h

theorem ipSet_lookup_self : ∀ (l : List IpHash) (iph : IpHash),
    ipLookup (ipSet l iph) iph.ipaddr = some iph := by
  intro l
  induction l with
  | nil =>
      intro iph
      simp [ipSet, ipLookup]
  | cons x rest ih =>
      intro iph
      by_cases hx : (x.ipaddr == iph.ipaddr) = true
      · simp [ipSet, hx, ipLookup]
      · simp [ipSet, hx, ipLookup, ih]

theorem ipSet_lookup_other : ∀ (l : List IpHash) (iph : IpHash) (ip : Nat),
    ip ≠ iph.ipaddr → ipLookup (ipSet l iph) ip = ipLookup l ip := by
  intro l
  induction l with
  | nil =>
      intro iph ip h
      simp only [ipSet, ipLookup]
      rw [if_neg (by simpa using fun he => h he.symm)]
  | cons x rest ih =>
      intro iph ip h
      by_cases hx : (x.ipaddr == iph.ipaddr) = true
      · have hx1 : x.ipaddr = iph.ipaddr := by simpa using hx
        simp only [ipSet, hx, if_true, ipLookup]
        rw [if_neg (by simpa using fun he => h he.symm),
          if_neg (by rw [hx1]; simpa using fun he => h he.symm)]
      · simp only [ipSet, hx, Bool.false_eq_true, if_false, ipLookup]
        by_cases hx2 : (x.ipaddr == ip) = true
        · rw [if_pos hx2, if_pos hx2]
        · rw [if_neg hx2, if_neg hx2]
          exact ih iph ip h

theorem mem_ipSet : ∀ (l : List IpHash) (iph x : IpHash),
    x ∈ ipSet l iph → x = iph ∨ x ∈ l := by
  intro l
  induction l with
  | nil =>
      intro iph x h
      simp [ipSet] at h
      exact Or.inl h
  | cons y rest ih =>
      intro iph x h
      by_cases hy : (y.ipaddr == iph.ipaddr) = true
      · simp only [ipSet, hy, if_true] at h
        rcases List.mem_cons.mp h with h | h
        · exact Or.inl h
        · exact Or.inr (List.mem_cons_of_mem y h)
      · simp only [ipSet, hy, Bool.false_eq_true, if_false] at h
        rcases List.mem_cons.mp h with h | h
        · exact Or.inr (h ▸ List.mem_cons_self y rest)
        · rcases ih iph x h with h2 | h2
          · exact Or.inl h2
          · exact Or.inr (List.mem_cons_of_mem y h2)

theorem srcSeen_append (l : List MsgBody) (b : MsgBody) (ip mid : Nat) :
    srcSeen (l ++ [b]) ip mid
      = (srcSeen l ip mid || (b.ipaddr == ip && b.issrc && b.tags.contains mid)) := by
  unfold srcSeen
  rw [List.any_append]
  simp

theorem dstSeen_append (l : List MsgBody) (b : MsgBody) (ip mid : Nat) :
    dstSeen (l ++ [b]) ip mid
      = (dstSeen l ip mid || (b.ipaddr == ip && !b.issrc && b.tags.contains mid)) := by
  unfold dstSeen
  rw [List.any_append]
  simp

theorem srcContrib_append (l : List MsgBody) (b : MsgBody) (mid : Nat) :
    srcContrib (l ++ [b]) mid
      = if b.issrc && b.tags.contains mid then insert b.ipaddr (srcContrib l mid)
        else srcContrib l mid := by
  unfold srcContrib
  rw [List.filter_append]
  by_cases h : (b.issrc && b.tags.contains mid) = true
  · rw [if_pos h]
    simp only [List.filter_cons, h, if_true, List.filter_nil]
    rw [List.map_append, List.toFinset_append]
    simp [Finset.union_comm, Finset.insert_eq]
  · rw [if_neg h]
    simp only [List.filter_cons, h, Bool.false_eq_true, if_false, List.filter_nil]
    simp

theorem dstContrib_append (l : List MsgBody) (b : MsgBody) (mid : Nat) :
    dstContrib (l ++ [b]) mid
      = if !b.issrc && b.tags.contains mid then insert b.ipaddr (dstContrib l mid)
        else dstContrib l mid := by
  unfold dstContrib
  rw [List.filter_append]
  by_cases h : (!b.issrc && b.tags.contains mid) = true
  · rw [if_pos h]
    simp only [List.filter_cons, h, if_true, List.filter_nil]
    rw [List.map_append, List.toFinset_append]
    simp [Finset.union_comm, Finset.insert_eq]
  · rw [if_neg h]
    simp only [List.filter_cons, h, Bool.false_eq_true, if_false, List.filter_nil]
    simp

theorem sumPackets_append (l : List MsgBody) (b : MsgBody) (mid : Nat) :
    sumPackets (l ++ [b]) mid
      = sumPackets l mid + (if 0 < b.size then b.tags.count mid else 0) := by
  unfold sumPackets
  rw [List.map_append, List.sum_append]
  simp

theorem sumBytes_append (l : List MsgBody) (b : MsgBody) (mid : Nat) :
    sumBytes (l ++ [b]) mid = sumBytes l mid + b.size * b.tags.count mid := by
  unfold sumBytes
  rw [List.map_append, List.sum_append]
  simp

theorem mem_srcContrib (l : List MsgBody) (ip mid : Nat) :
    ip ∈ srcContrib l mid ↔ srcSeen l ip mid = true := by
  unfold srcContrib srcSeen
  constructor
  · intro h
    rcases List.mem_map.mp (List.mem_toFinset.mp h) with ⟨b, hbf, hbi⟩
    rcases List.mem_filter.mp hbf with ⟨hbl, hbp⟩
    refine List.any_eq_true.mpr ⟨b, hbl, ?_⟩
    rcases Bool.and_eq_true _ _ |>.mp hbp with ⟨hsrc, hcont⟩
    rw [hbi]
    simp only [hsrc, hcont, beq_self_eq_true, Bool.true_and, Bool.and_true,
      Bool.and_self]
  · intro h
    rcases List.any_eq_true.mp h with ⟨b, hbl, hbp⟩
    rcases Bool.and_eq_true _ _ |>.mp hbp with ⟨hb1, hcont⟩
    rcases Bool.and_eq_true _ _ |>.mp hb1 with ⟨hip, hsrc⟩
    refine List.mem_toFinset.mpr (List.mem_map.mpr ⟨b, ?_, by simpa using hip⟩)
    exact List.mem_filter.mpr ⟨hbl, by rw [hsrc, hcont]; rfl⟩

theorem mem_dstContrib (l : List MsgBody) (ip mid : Nat) :
    ip ∈ dstContrib l mid ↔ dstSeen l ip mid = true := by
  unfold dstContrib dstSeen
  constructor
  · intro h
    rcases List.mem_map.mp (List.mem_toFinset.mp h) with ⟨b, hbf, hbi⟩
    rcases List.mem_filter.mp hbf with ⟨hbl, hbp⟩
    refine List.any_eq_true.mpr ⟨b, hbl, ?_⟩
    rcases Bool.and_eq_true _ _ |>.mp hbp with ⟨hsrc, hcont⟩
    rw [hbi]
    simp only [hsrc, hcont, beq_self_eq_true, Bool.true_and, Bool.and_true,
      Bool.and_self]
  · intro h
    rcases List.any_eq_true.mp h with ⟨b, hbl, hbp⟩
    rcases Bool.and_eq_true _ _ |>.mp hbp with ⟨hb1, hcont⟩
    rcases Bool.and_eq_true _ _ |>.mp hb1 with ⟨hip, hsrc⟩
    refine List.mem_toFinset.mpr (List.mem_map.mpr ⟨b, ?_, by simpa using hip⟩)
    exact List.mem_filter.mpr ⟨hbl, by rw [hsrc, hcont]; rfl⟩

theorem process_body_maps_spec (K : List IpHash) (T : List (Nat × MetricTally)) (b : MsgBody)
    (hK : ∀ iph ∈ K, IpGood iph) :
    (∀ iph ∈ (process_body_maps K T b).1, IpGood iph) ∧
    (∀ ip mid, (stateRole (process_body_maps K T b).1 ip mid).testBit 0
        = ((stateRole K ip mid).testBit 0 || (b.ipaddr == ip && b.issrc && b.tags.contains mid))) ∧
    (∀ ip mid, (stateRole (process_body_maps K T b).1 ip mid).testBit 1
        = ((stateRole K ip mid).testBit 1 || (b.ipaddr == ip && !b.issrc && b.tags.contains mid))) ∧
    (∀ mid, (tallyLookup (process_body_maps K T b).2 mid).srcips
        = (tallyLookup T mid).srcips
          + (if b.issrc = true ∧ mid ∈ b.tags ∧ (stateRole K b.ipaddr mid).testBit 0 = false
             then 1 else 0)) ∧
    (∀ mid, (tallyLookup (process_body_maps K T b).2 mid).destips
        = (tallyLookup T mid).destips
          + (if b.issrc = false ∧ mid ∈ b.tags ∧ (stateRole K b.ipaddr mid).testBit 1 = false
             then 1 else 0)) ∧
    (∀ mid, (tallyLookup (process_body_maps K T b).2 mid).packets
        = (tallyLookup T mid).packets + (if 0 < b.size then b.tags.count mid else 0)) ∧
    (∀ mid, (tallyLookup (process_body_maps K T b).2 mid).bytes
        = (tallyLookup T mid).bytes + b.size * b.tags.count mid) := by
  cases hbt : b.tags with
  | nil =>
      have hb1 : (process_body_maps K T b).1 = K := by
        unfold process_body_maps
        rw [hbt]
      have hb2 : (process_body_maps K T b).2 = T := by
        unfold process_body_maps
        rw [hbt]
      refine ⟨?_, ?_, ?_, ?_, ?_, ?_, ?_⟩
      · rw [hb1]
        exact hK
      · intro ip mid
        rw [hb1, contains_eq_decide_mem]
        simp
      · intro ip mid
        rw [hb1, contains_eq_decide_mem]
        simp
      · intro mid
        rw [hb2]
        simp
      · intro mid
        rw [hb2]
        simp
      · intro mid
        rw [hb2]
        simp
      · intro mid
        rw [hb2]
        simp
  | cons t ts =>
      have hb1 : (process_body_maps K T b).1
          = ipSet K (tagsFold b.issrc b.size b.tags
              ((ipLookup K b.ipaddr).getD (newIpHash b.ipaddr)) T).1 := by
        unfold process_body_maps tagsFold
        rw [hbt]
      have hb2 : (process_body_maps K T b).2
          = (tagsFold b.issrc b.size b.tags
              ((ipLookup K b.ipaddr).getD (newIpHash b.ipaddr)) T).2 := by
        unfold process_body_maps tagsFold
        rw [hbt]
      have hgood0 : IpGood ((ipLookup K b.ipaddr).getD (newIpHash b.ipaddr)) := by
        cases hlo : ipLookup K b.ipaddr with
        | none => exact IpGood_new b.ipaddr
        | some x => exact hK x (ipLookup_mem K b.ipaddr x hlo)
      have haddr0 : ((ipLookup K b.ipaddr).getD (newIpHash b.ipaddr)).ipaddr = b.ipaddr := by
        cases hlo : ipLookup K b.ipaddr with
        | none => rfl
        | some x => exact ipLookup_addr K b.ipaddr x hlo
      obtain ⟨f1, f2, f3, f4, f5, f6, f7⟩ :=
        tagsFold_spec b.issrc b.size b.tags
          ((ipLookup K b.ipaddr).getD (newIpHash b.ipaddr)) T hgood0
      have hl1 : ipLookup
          (ipSet K (tagsFold b.issrc b.size b.tags
            ((ipLookup K b.ipaddr).getD (newIpHash b.ipaddr)) T).1) b.ipaddr
          = some (tagsFold b.issrc b.size b.tags
              ((ipLookup K b.ipaddr).getD (newIpHash b.ipaddr)) T).1 := by
        have h0 := ipSet_lookup_self K (tagsFold b.issrc b.size b.tags
          ((ipLookup K b.ipaddr).getD (newIpHash b.ipaddr)) T).1
        rwa [f2.trans haddr0] at h0
      refine ⟨?_, ?_, ?_, ?_, ?_, ?_, ?_⟩
      · intro x hx
        rw [hb1] at hx
        rcases mem_ipSet _ _ _ hx with h | h
        · exact h ▸ f1
        · exact hK x h
      · intro ip mid
        rw [hb1, ← hbt]
        by_cases hip : b.ipaddr = ip
        · subst hip
          have hsr : stateRole
              (ipSet K (tagsFold b.issrc b.size b.tags
                ((ipLookup K b.ipaddr).getD (newIpHash b.ipaddr)) T).1) b.ipaddr mid
              = roleBits (tagsFold b.issrc b.size b.tags
                  ((ipLookup K b.ipaddr).getD (newIpHash b.ipaddr)) T).1 mid := by
            unfold stateRole
            rw [hl1]
            rfl
          rw [hsr, f3 mid, Nat.testBit_or]
          by_cases hm : mid ∈ b.tags
          · rw [if_pos hm, contains_eq_decide_mem]
            cases hs : b.issrc with
            | true =>
                simp only [beq_self_eq_true, Bool.true_and, hm, decide_True, Bool.and_true,
                  if_true, show Nat.testBit 1 0 = true from by decide, Bool.or_true]
            | false =>
                simp only [beq_self_eq_true, Bool.true_and, hm, decide_True, Bool.and_true,
                  Bool.false_and, show ((if ((false : Bool) = true) then (1 : Nat) else 2)) = 2
                    from rfl,
                  show Nat.testBit 2 0 = false from by decide, Bool.or_false]
                rfl
          · rw [if_neg hm, contains_eq_decide_mem]
            simp only [hm, decide_False, Bool.and_false, Bool.or_false, Nat.zero_testBit]
            rfl
        · have hbeq : (b.ipaddr == ip) = false := beq_eq_false_iff_ne.mpr hip
          have hne : ip ≠ (tagsFold b.issrc b.size b.tags
              ((ipLookup K b.ipaddr).getD (newIpHash b.ipaddr)) T).1.ipaddr := by
            rw [f2.trans haddr0]
            exact fun he => hip he.symm
          have hsr : stateRole
              (ipSet K (tagsFold b.issrc b.size b.tags
                ((ipLookup K b.ipaddr).getD (newIpHash b.ipaddr)) T).1) ip mid
              = stateRole K ip mid := by
            unfold stateRole
            rw [ipSet_lookup_other K _ ip hne]
          rw [hsr, hbeq]
          simp
      · intro ip mid
        rw [hb1, ← hbt]
        by_cases hip : b.ipaddr = ip
        · subst hip
          have hsr : stateRole
              (ipSet K (tagsFold b.issrc b.size b.tags
                ((ipLookup K b.ipaddr).getD (newIpHash b.ipaddr)) T).1) b.ipaddr mid
              = roleBits (tagsFold b.issrc b.size b.tags
                  ((ipLookup K b.ipaddr).getD (newIpHash b.ipaddr)) T).1 mid := by
            unfold stateRole
            rw [hl1]
            rfl
          rw [hsr, f3 mid, Nat.testBit_or]
          by_cases hm : mid ∈ b.tags
          · rw [if_pos hm, contains_eq_decide_mem]
            cases hs : b.issrc with
            | true =>
                simp only [beq_self_eq_true, Bool.true_and, hm, decide_True, Bool.and_true,
                  Bool.not_true, Bool.false_and, if_true,
                  show ((if ((true : Bool) = true) then (1 : Nat) else 2)) = 1 from rfl,
                  show Nat.testBit 1 1 = false from by decide, Bool.or_false]
                rfl
            | false =>
                simp only [beq_self_eq_true, Bool.true_and, hm, decide_True, Bool.and_true,
                  Bool.not_false, if_true,
                  show ((if ((false : Bool) = true) then (1 : Nat) else 2)) = 2 from rfl,
                  show Nat.testBit 2 1 = true from by decide, Bool.or_true]
          · rw [if_neg hm, contains_eq_decide_mem]
            simp only [hm, decide_False, Bool.and_false, Bool.or_false, Nat.zero_testBit]
            rfl
        · have hbeq : (b.ipaddr == ip) = false := beq_eq_false_iff_ne.mpr hip
          have hne : ip ≠ (tagsFold b.issrc b.size b.tags
              ((ipLookup K b.ipaddr).getD (newIpHash b.ipaddr)) T).1.ipaddr := by
            rw [f2.trans haddr0]
            exact fun he => hip he.symm
          have hsr : stateRole
              (ipSet K (tagsFold b.issrc b.size b.tags
                ((ipLookup K b.ipaddr).getD (newIpHash b.ipaddr)) T).1) ip mid
              = stateRole K ip mid := by
            unfold stateRole
            rw [ipSet_lookup_other K _ ip hne]
          rw [hsr, hbeq]
          simp
      · intro mid
        rw [← hbt, hb2, f4 mid]
        rfl
      · intro mid
        rw [← hbt, hb2, f5 mid]
        rfl
      · intro mid
        rw [← hbt, hb2, f6 mid]
      · intro mid
        rw [← hbt, hb2, f7 mid]

theorem processBodies_spec (bodies : List MsgBody) :
    (∀ iph ∈ (processBodies bodies).1, IpGood iph) ∧
    (∀ ip mid, (stateRole (processBodies bodies).1 ip mid).testBit 0 = srcSeen bodies ip mid) ∧
    (∀ ip mid, (stateRole (processBodies bodies).1 ip mid).testBit 1 = dstSeen bodies ip mid) ∧
    (∀ mid, (tallyLookup (processBodies bodies).2 mid).srcips = (srcContrib bodies mid).card) ∧
    (∀ mid, (tallyLookup (processBodies bodies).2 mid).destips = (dstContrib bodies mid).card) ∧
    (∀ mid, (tallyLookup (processBodies bodies).2 mid).packets = sumPackets bodies mid) ∧
    (∀ mid, (tallyLookup (processBodies bodies).2 mid).bytes = sumBytes bodies mid) := by
  induction bodies using List.reverseRecOn with
  | nil =>
      refine ⟨?_, ?_, ?_, ?_, ?_, ?_, ?_⟩
      · intro iph h
        exact absurd h (List.not_mem_nil iph)
      · intro ip mid
        simp [processBodies, stateRole, ipLookup, newIpHash, roleBits, arrFind,
          METRIC_ARRAY_SIZE, srcSeen]
      · intro ip mid
        simp [processBodies, stateRole, ipLookup, newIpHash, roleBits, arrFind,
          METRIC_ARRAY_SIZE, dstSeen]
      · intro mid
        rfl
      · intro mid
        rfl
      · intro mid
        rfl
      · intro mid
        rfl
  | append_singleton l b ih =>
      obtain ⟨i1, i2, i3, i4, i5, i6, i7⟩ := ih
      have hPB : processBodies (l ++ [b])
          = process_body_maps (processBodies l).1 (processBodies l).2 b := by
        unfold processBodies
        rw [List.foldl_append]
        simp only [List.foldl_cons, List.foldl_nil]
      obtain ⟨s1, s2, s3, s4, s5, s6, s7⟩ :=
        process_body_maps_spec (processBodies l).1 (processBodies l).2 b i1
      refine ⟨?_, ?_, ?_, ?_, ?_, ?_, ?_⟩
      · rw [hPB]
        exact s1
      · intro ip mid
        rw [hPB, s2 ip mid, i2 ip mid, srcSeen_append]
      · intro ip mid
        rw [hPB, s3 ip mid, i3 ip mid, dstSeen_append]
      · intro mid
        rw [hPB, s4 mid, i4 mid, srcContrib_append]
        have hi2 := i2 b.ipaddr mid
        by_cases hs : b.issrc = true
        · by_cases hm : mid ∈ b.tags
          · have hcond : (b.issrc && b.tags.contains mid) = true := by
              rw [hs, contains_eq_decide_mem]
              simp [hm]
            rw [if_pos hcond]
            by_cases hbit : (stateRole (processBodies l).1 b.ipaddr mid).testBit 0 = false
            · rw [if_pos ⟨hs, hm, hbit⟩]
              have hnot : b.ipaddr ∉ srcContrib l mid := by
                intro hmem
                have h1 := (mem_srcContrib l b.ipaddr mid).mp hmem
                rw [← hi2, hbit] at h1
                exact Bool.false_ne_true h1
              rw [Finset.card_insert_of_not_mem hnot]
            · have hnc : ¬(b.issrc = true ∧ mid ∈ b.tags
                  ∧ (stateRole (processBodies l).1 b.ipaddr mid).testBit 0 = false) :=
                fun h => hbit h.2.2
              rw [if_neg hnc, Nat.add_zero]
              have hbit' : (stateRole (processBodies l).1 b.ipaddr mid).testBit 0 = true := by
                cases h : (stateRole (processBodies l).1 b.ipaddr mid).testBit 0 with
                | false => exact absurd h hbit
                | true => rfl
              have hmem : b.ipaddr ∈ srcContrib l mid := by
                rw [mem_srcContrib, ← hi2]
                exact hbit'
              rw [Finset.insert_eq_self.mpr hmem]
          · have hcond : (b.issrc && b.tags.contains mid) = false := by
              rw [contains_eq_decide_mem]
              simp [hm]
            have hnc : ¬(b.issrc = true ∧ mid ∈ b.tags
                ∧ (stateRole (processBodies l).1 b.ipaddr mid).testBit 0 = false) :=
              fun h => hm h.2.1
            rw [if_neg hnc, Nat.add_zero,
              if_neg (show ¬_ = true by rw [hcond]; exact Bool.false_ne_true)]
        · have hs' : b.issrc = false := by
            cases h : b.issrc with
            | false => rfl
            | true => exact absurd h hs
          have hcond : (b.issrc && b.tags.contains mid) = false := by
            rw [hs']
            rfl
          have hnc : ¬(b.issrc = true ∧ mid ∈ b.tags
              ∧ (stateRole (processBodies l).1 b.ipaddr mid).testBit 0 = false) :=
            fun h => hs h.1
          rw [if_neg hnc, Nat.add_zero,
            if_neg (show ¬_ = true by rw [hcond]; exact Bool.false_ne_true)]
      · intro mid
        rw [hPB, s5 mid, i5 mid, dstContrib_append]
        have hi3 := i3 b.ipaddr mid
        by_cases hs : b.issrc = false
        · by_cases hm : mid ∈ b.tags
          · have hcond : (!b.issrc && b.tags.contains mid) = true := by
              rw [hs, contains_eq_decide_mem]
              simp [hm]
            rw [if_pos hcond]
            by_cases hbit : (stateRole (processBodies l).1 b.ipaddr mid).testBit 1 = false
            · rw [if_pos ⟨hs, hm, hbit⟩]
              have hnot : b.ipaddr ∉ dstContrib l mid := by
                intro hmem
                have h1 := (mem_dstContrib l b.ipaddr mid).mp hmem
                rw [← hi3, hbit] at h1
                exact Bool.false_ne_true h1
              rw [Finset.card_insert_of_not_mem hnot]
            · have hnc : ¬(b.issrc = false ∧ mid ∈ b.tags
                  ∧ (stateRole (processBodies l).1 b.ipaddr mid).testBit 1 = false) :=
                fun h => hbit h.2.2
              rw [if_neg hnc, Nat.add_zero]
              have hbit' : (stateRole (processBodies l).1 b.ipaddr mid).testBit 1 = true := by
                cases h : (stateRole (processBodies l).1 b.ipaddr mid).testBit 1 with
                | false => exact absurd h hbit
                | true => rfl
              have hmem : b.ipaddr ∈ dstContrib l mid := by
                rw [mem_dstContrib, ← hi3]
                exact hbit'
              rw [Finset.insert_eq_self.mpr hmem]
          · have hcond : (!b.issrc && b.tags.contains mid) = false := by
              rw [contains_eq_decide_mem]
              simp [hm]
            have hnc : ¬(b.issrc = false ∧ mid ∈ b.tags
                ∧ (stateRole (processBodies l).1 b.ipaddr mid).testBit 1 = false) :=
              fun h => hm h.2.1
            rw [if_neg hnc, Nat.add_zero,
              if_neg (show ¬_ = true by rw [hcond]; exact Bool.false_ne_true)]
        · have hs' : b.issrc = true := by
            cases h : b.issrc with
            | true => rfl
            | false => exact absurd h hs
          have hcond : (!b.issrc && b.tags.contains mid) = false := by
            rw [hs']
            rfl
          have hnc : ¬(b.issrc = false ∧ mid ∈ b.tags
              ∧ (stateRole (processBodies l).1 b.ipaddr mid).testBit 1 = false) :=
            fun h => hs h.1
          rw [if_neg hnc, Nat.add_zero,
            if_neg (show ¬_ = true by rw [hcond]; exact Bool.false_ne_true)]
      · intro mid
        rw [hPB, s6 mid, i6 mid, sumPackets_append]
      · intro mid
        rw [hPB, s7 mid, i7 mid, sumBytes_append]

/-- C1: within one tracker and one interval, the unique source-IP and unique
destination-IP counters of every tag equal the number of distinct IP
addresses observed in that role carrying that tag, so repeated
(tag, ip, role) observations increment each counter at most once, across both
the inline-array storage and the promoted hash-map storage of the per-IP
metric sets. -/
theorem c1_unique_ip_counts (bodies : List MsgBody) (mid : Nat) :
    (tallyLookup (processBodies bodies).2 mid).srcips = (srcContrib bodies mid).card ∧
    (tallyLookup (processBodies bodies).2 mid).destips = (dstContrib bodies mid).card :=
  ⟨(processBodies_spec bodies).2.2.2.1 mid, (processBodies_spec bodies).2.2.2.2.1 mid⟩

/-- C2 counterexample: processing the two update bodies of one packet whose
IP length is zero (the source-role body and the zero-sized destination-role
body) leaves the packet and byte tallies of its tag at zero even though the
entry is recorded as a unique source, so the packet and byte tallies are not
increased exactly once for every processed packet. -/
theorem c2_zero_length_packet_counterexample :
    (tallyLookup (processBodies [mkBody 1 true 0 [5], mkBody 2 false 0 [5]]).2 5).packets = 0 ∧
    (tallyLookup (processBodies [mkBody 1 true 0 [5], mkBody 2 false 0 [5]]).2 5).bytes = 0 ∧
    (tallyLookup (processBodies [mkBody 1 true 0 [5], mkBody 2 false 0 [5]]).2 5).srcips = 1 := by
  refine ⟨rfl, rfl, rfl⟩

/-- C2 amended: for a processed packet of nonzero IP length carrying a tag
exactly once, the packet tally of that tag rises by exactly one and the byte
tally by exactly the packet's IP length; the contribution arrives with the
source-role body alone, the destination-role body being sized zero by
process_tags. -/
theorem c2_src_only_tallies (prior : List MsgBody) (srcip dstip iplen : Nat)
    (tags : List Nat) (mid : Nat) (hlen : 0 < iplen) (hcount : tags.count mid = 1) :
    (tallyLookup (processBodies (prior ++ [mkBody srcip true iplen tags,
        mkBody dstip false iplen tags])).2 mid).packets
      = (tallyLookup (processBodies prior).2 mid).packets + 1 ∧
    (tallyLookup (processBodies (prior ++ [mkBody srcip true iplen tags,
        mkBody dstip false iplen tags])).2 mid).bytes
      = (tallyLookup (processBodies prior).2 mid).bytes + iplen := by
  have h12 : prior ++ [mkBody srcip true iplen tags, mkBody dstip false iplen tags]
      = (prior ++ [mkBody srcip true iplen tags]) ++ [mkBody dstip false iplen tags] := by
    simp
  have hp := (processBodies_spec (prior ++ [mkBody srcip true iplen tags,
      mkBody dstip false iplen tags])).2.2.2.2.2.1 mid
  have hby := (processBodies_spec (prior ++ [mkBody srcip true iplen tags,
      mkBody dstip false iplen tags])).2.2.2.2.2.2 mid
  have hp0 := (processBodies_spec prior).2.2.2.2.2.1 mid
  have hb0 := (processBodies_spec prior).2.2.2.2.2.2 mid
  have hs1 : (mkBody srcip true iplen tags).size = iplen := rfl
  have hs2 : (mkBody dstip false iplen tags).size = 0 := rfl
  have ht1 : (mkBody srcip true iplen tags).tags = tags := rfl
  have ht2 : (mkBody dstip false iplen tags).tags = tags := rfl
  constructor
  · rw [hp, hp0, h12, sumPackets_append, sumPackets_append, hs1, hs2, ht1,
      if_pos hlen, hcount, if_neg (Nat.lt_irrefl 0)]
  · rw [hby, hb0, h12, sumBytes_append, sumBytes_append, hs1, hs2, ht1, ht2, hcount]
    omega

/-- Closed instance of the amended C2 statement: the hypotheses hold at
IP length 4 and the single tag 7, and the theorem applied there gives the
exactly-once packet and byte increments. -/
theorem c2_src_only_tallies_witness :
    0 < 4 ∧ List.count 7 [7] = 1 ∧
    ((tallyLookup (processBodies ([] ++ [mkBody 1 true 4 [7],
        mkBody 2 false 4 [7]])).2 7).packets
       = (tallyLookup (processBodies []).2 7).packets + 1 ∧
     (tallyLookup (processBodies ([] ++ [mkBody 1 true 4 [7],
        mkBody 2 false 4 [7]])).2 7).bytes
       = (tallyLookup (processBodies []).2 7).bytes + 4) :=
  ⟨by decide, by decide, c2_src_only_tallies [] 1 2 4 [7] 7 (by decide) (by decide)⟩

/-- C10: a source-role update body carrying IP length zero leaves every tag's
packet and byte tallies unchanged, yet still registers its IP address as a
unique source for each tag it carries. -/
theorem c10_zero_length_source (prior : List MsgBody) (ip : Nat) (tags : List Nat)
    (mid : Nat) (hmem : mid ∈ tags) :
    (tallyLookup (processBodies (prior ++ [mkBody ip true 0 tags])).2 mid).packets
      = (tallyLookup (processBodies prior).2 mid).packets ∧
    (tallyLookup (processBodies (prior ++ [mkBody ip true 0 tags])).2 mid).bytes
      = (tallyLookup (processBodies prior).2 mid).bytes ∧
    (tallyLookup (processBodies (prior ++ [mkBody ip true 0 tags])).2 mid).srcips
      = (insert ip (srcContrib prior mid)).card := by
  have hp := (processBodies_spec (prior ++ [mkBody ip true 0 tags])).2.2.2.2.2.1 mid
  have hby := (processBodies_spec (prior ++ [mkBody ip true 0 tags])).2.2.2.2.2.2 mid
  have hsi := (processBodies_spec (prior ++ [mkBody ip true 0 tags])).2.2.2.1 mid
  have hp0 := (processBodies_spec prior).2.2.2.2.2.1 mid
  have hb0 := (processBodies_spec prior).2.2.2.2.2.2 mid
  have hs1 : (mkBody ip true 0 tags).size = 0 := rfl
  have ht1 : (mkBody ip true 0 tags).tags = tags := rfl
  have ha1 : (mkBody ip true 0 tags).ipaddr = ip := rfl
  have hsrc1 : (mkBody ip true 0 tags).issrc = true := rfl
  refine ⟨?_, ?_, ?_⟩
  · rw [hp, hp0, sumPackets_append, hs1, if_neg (Nat.lt_irrefl 0), Nat.add_zero]
  · rw [hby, hb0, sumBytes_append, hs1, ht1, Nat.zero_mul, Nat.add_zero]
  · rw [hsi, srcContrib_append]
    have hcond : ((mkBody ip true 0 tags).issrc
        && (mkBody ip true 0 tags).tags.contains mid) = true := by
      rw [hsrc1, ht1, contains_eq_decide_mem]
      simp [hmem]
    rw [if_pos hcond, ha1]

/-- Closed instance of the C10 statement: for the zero-length source body of
IP 9 carrying tag 3, the theorem applied there gives unchanged packet and
byte tallies and a unique-source registration. -/
theorem c10_zero_length_source_witness :
    3 ∈ ([3] : List Nat) ∧
    ((tallyLookup (processBodies ([] ++ [mkBody 9 true 0 [3]])).2 3).packets
       = (tallyLookup (processBodies []).2 3).packets ∧
     (tallyLookup (processBodies ([] ++ [mkBody 9 true 0 [3]])).2 3).bytes
       = (tallyLookup (processBodies []).2 3).bytes ∧
     (tallyLookup (processBodies ([] ++ [mkBody 9 true 0 [3]])).2 3).srcips
       = (insert 9 (srcContrib [] 3)).card) :=
  ⟨by decide, c10_zero_length_source [] 9 [3] 3 (by decide)⟩

end CorsaroReport
